import Mathlib

/-!
# GAP local-search solver (d0iasm/gap): embedding and verified properties

Shallow embedding of `gap.c` (Policy A, segmented greedy reassignment) and
`gap_MLS_swap.c` (Policy B, pairwise swap).

Conventions of the embedding
* A C array `int *p` is a total map from indices to values (`Nat → Int`, or
  `Nat → Nat` for assignment vectors, whose entries are agent indices); a
  store `p[i] = v` is `Function.update p i v`.  Indices outside the allocated
  range are never read by the theorems below.
* C `int` arithmetic in the search code is modelled on `Int`; signed overflow
  is undefined in C, so that model describes every run in which no
  intermediate value leaves the `int` range.  The evaluator (`calculate_cost`,
  `recompute_cost`) is given a second time in the namespace `Machine`, on the
  32-bit `int` of the target with two's-complement wrap-around, and is shown
  to agree with the exact one when no intermediate value leaves the range.
* `rand()` is an explicit stream of naturals: `rand k s` is the `s`-th value
  returned after `srand(k)`.
* Loops that need not terminate (`while (!is_feasible)`, `while (impr <
  impr_lim)`) take a fuel argument and return `none` when it runs out.
-/

namespace Gap

/-! ## Problem data and basic control structure -/

/-- The struct `GAPdata`: `n` jobs, `m` agents, cost matrix `c[i][j]`, resource
requirement matrix `a[i][j]` (agent `i`, job `j`) and capacities `b[i]`. -/
structure GAPdata where
  n : Nat
  m : Nat
  c : Nat → Nat → Int
  a : Nat → Nat → Int
  b : Nat → Int

/-- The loop `for (i = 0; i < k; i++) s = body i s`. -/
def forLoop {σ : Type} (body : Nat → σ → σ) : Nat → σ → σ
  | 0, s => s
  | k + 1, s => body k (forLoop body k s)

/-- The macro `max(a, b)` of gap.c: `((a) > (b)) ? (a) : (b)`.  gap_MLS_swap.c
uses `max` and `min` without defining them; the macros of gap.c are taken. -/
def max (a b : Int) : Int := if a > b then a else b

/-- The macro `min(a, b)` of gap.c: `((a) < (b)) ? (a) : (b)`. -/
def min (a b : Int) : Int := if a < b then a else b

/-- The constant `INT_MAX` of a 32-bit `int`. -/
def INT_MAX : Int := 2147483647

/-- The constant `INFEASIBLE_COST` of gap_MLS_swap.c. -/
def INFEASIBLE_COST : Int := 3

/-! ## Evaluator, as the specification words it -/

/-- Specification `rawCost(assign)`: the sum over jobs of `c[assign[j]][j]`. -/
def rawCost (d : GAPdata) (assign : Nat → Nat) : Int :=
  ∑ j in Finset.range d.n, d.c (assign j) j

/-- Cumulative requirement assigned to agent `i`: the sum of `a[i][j]` over
the jobs `j` with `assign[j] = i`. -/
def assignedLoad (d : GAPdata) (assign : Nat → Nat) (i : Nat) : Int :=
  ∑ j in (Finset.range d.n).filter (fun j => assign j = i), d.a i j

/-- Specification of the remaining-capacity vector:
`rest[i] = b[i] - Σ_{j : assign[j] = i} a[i][j]`. -/
def trueRest (d : GAPdata) (assign : Nat → Nat) (i : Nat) : Int :=
  d.b i - assignedLoad d assign i

/-- The bookkeeping invariant: `rest` agrees with `trueRest` at every agent. -/
def Consistent (d : GAPdata) (assign : Nat → Nat) (rest : Nat → Int) : Prop :=
  ∀ i, i < d.m → rest i = trueRest d assign i

/-- Specification `capacityExcess(rest)`: the sum over agents of
`max(0, -rest[i])`. -/
def capacityExcess (d : GAPdata) (rest : Nat → Int) : Int :=
  ∑ i in Finset.range d.m, Max.max 0 (-rest i)

/-- Specification `penalizedCost(assign, rest, weight)`. -/
def penalizedCost (d : GAPdata) (assign : Nat → Nat) (rest : Nat → Int)
    (weight : Int) : Int :=
  rawCost d assign + weight * capacityExcess d rest

/-- An assignment respects every capacity: no agent's cumulative assigned
requirement exceeds `b[i]`. -/
def Feasible (d : GAPdata) (assign : Nat → Nat) : Prop :=
  ∀ i, i < d.m → assignedLoad d assign i ≤ d.b i

/-- Every entry of the assignment is an agent index in `[0, m)`. -/
def InRange (d : GAPdata) (assign : Nat → Nat) : Prop :=
  ∀ j, j < d.n → assign j < d.m

instance (d : GAPdata) (assign : Nat → Nat) : Decidable (InRange d assign) :=
  inferInstanceAs (Decidable (∀ j, j < d.n → assign j < d.m))

/-- The function `calculate_cost` on exact integers: `cost += c[sol[i]][i]` for
`i` in `[0, n)`.  `Machine.calculate_cost` is the same loop on a 32-bit `int`. -/
def calculate_cost (sol : Nat → Nat) (d : GAPdata) : Int :=
  forLoop (fun i cost => cost + d.c (sol i) i) d.n 0

/-- The loop `for (i = 0; i < m; i++) rest_b[i] = b[i];`. -/
def initRest (d : GAPdata) (rest_b : Nat → Int) : Nat → Int :=
  forLoop (fun i r => Function.update r i (d.b i)) d.m rest_b

/-- The loop `for (j = 0; j < n; j++) rest_b[sol[j]] -= a[sol[j]][j];`. -/
def subtractLoads (d : GAPdata) (sol : Nat → Nat) (rest_b : Nat → Int) : Nat → Int :=
  forLoop (fun j r => Function.update r (sol j) (r (sol j) - d.a (sol j) j)) d.n rest_b

/-- What `recompute_cost` computes and prints. -/
structure Report where
  cost : Int
  penal : Int
  rest_b : Nat → Int
  infeasible : Bool

/-- The function `recompute_cost` on exact integers, for
`vdata->bestsol = bestsol`; `mem` is the content of the freshly allocated
`rest_b`.  The job loop updates `rest_b` and `cost` together; `infeasible`
records whether `INFEASIBLE!!` is printed.  `Machine.recompute_cost` is the
same code on 32-bit `int`s. -/
def recompute_cost (bestsol : Nat → Nat) (d : GAPdata) (mem : Nat → Int) : Report :=
  let rest0 := forLoop (fun i r => Function.update r i (d.b i)) d.m mem
  let rc := forLoop
    (fun j (s : (Nat → Int) × Int) =>
      (Function.update s.1 (bestsol j) (s.1 (bestsol j) - d.a (bestsol j) j),
       s.2 + d.c (bestsol j) j))
    d.n (rest0, 0)
  let penal := forLoop
    (fun i penal => let temp := rc.1 i; if temp < 0 then penal - temp else penal)
    d.m 0
  { cost := rc.2, penal := penal, rest_b := rc.1, infeasible := decide (penal > 0) }

/-! ## The evaluator on the 32-bit `int` of the machine -/

/-- The constant `INT_MIN` of a 32-bit `int`. -/
def INT_MIN : Int := -2147483648

namespace Machine

/-- The value a 32-bit `int` holds when the exact result of an addition or
subtraction is `x`: two's-complement wrap-around into
`[-2147483648, 2147483647]`, which is what the compiled program does (the C
standard leaves signed overflow undefined). -/
def wrap (x : Int) : Int := (x + 2147483648) % 4294967296 - 2147483648

/-- The function `calculate_cost` with `cost` a 32-bit `int`:
`cost += c[sol[i]][i]` for `i` in `[0, n)`. -/
def calculate_cost (sol : Nat → Nat) (d : GAPdata) : Int :=
  forLoop (fun i cost => wrap (cost + d.c (sol i) i)) d.n 0

/-- The function `recompute_cost` with `rest_b`, `cost`, `penal` and `temp`
32-bit `int`s, for `vdata->bestsol = bestsol`; `mem` is the content of the
freshly allocated `rest_b`.  `infeasible` records whether `INFEASIBLE!!` is
printed. -/
def recompute_cost (bestsol : Nat → Nat) (d : GAPdata) (mem : Nat → Int) : Report :=
  let rest0 := forLoop (fun i r => Function.update r i (d.b i)) d.m mem
  let rc := forLoop
    (fun j (s : (Nat → Int) × Int) =>
      (Function.update s.1 (bestsol j) (wrap (s.1 (bestsol j) - d.a (bestsol j) j)),
       wrap (s.2 + d.c (bestsol j) j)))
    d.n (rest0, 0)
  let penal := forLoop
    (fun i penal => let temp := rc.1 i; if temp < 0 then wrap (penal - temp) else penal)
    d.m 0
  { cost := rc.2, penal := penal, rest_b := rc.1, infeasible := decide (penal > 0) }

end Machine

/-! ## gap_MLS_swap.c: random construction with repair -/

namespace MLS

/-- Local variables of `random_init`, with the position `pos` of the next
value of the random stream. -/
structure InitState where
  sol : Nat → Nat
  rest_b : Nat → Int
  is_feasible : Bool
  pos : Nat

/-- Body of the first job loop of `random_init`: `sol[i] = rand() % m`, the
requirement is taken from `rest_b`, and `is_feasible` is cleared when the
agent goes below zero. -/
def drawJob (d : GAPdata) (rng : Nat → Nat) (i : Nat) (s : InitState) : InitState :=
  let v := rng s.pos % d.m
  let rest := Function.update s.rest_b v (s.rest_b v - d.a v i)
  { sol := Function.update s.sol i v,
    rest_b := rest,
    is_feasible := if rest v < 0 then false else s.is_feasible,
    pos := s.pos + 1 }

/-- Body of the repair loop over jobs, for the candidate agent `swap`
(gap_MLS_swap.c tests `rest_b[swap] > a[tmp][i]`). -/
def repairJob (d : GAPdata) (swap : Nat) (i : Nat) (s : InitState) : InitState :=
  let tmp := s.sol i
  if s.rest_b tmp > 0 then s
  else if d.a tmp i > d.a swap i ∨ s.rest_b swap > d.a tmp i then
    let rest1 := Function.update s.rest_b tmp (s.rest_b tmp + d.a tmp i)
    let rest2 := Function.update rest1 swap (rest1 swap - d.a swap i)
    { s with sol := Function.update s.sol i swap, rest_b := rest2 }
  else s

/-- The check closing one round of the repair loop: `is_feasible = true`, then
cleared by every agent with `rest_b[i] < 0`. -/
def checkFeasible (d : GAPdata) (rest_b : Nat → Int) : Bool :=
  forLoop (fun i ok => if rest_b i < 0 then false else ok) d.m true

/-- One round of `while (!is_feasible)`: draw `swap`, run the job loop, redo
the feasibility check. -/
def repairRound (d : GAPdata) (rng : Nat → Nat) (s : InitState) : InitState :=
  let swap := rng s.pos % d.m
  let s1 := forLoop (repairJob d swap) d.n { s with pos := s.pos + 1 }
  { s1 with is_feasible := checkFeasible d s1.rest_b }

/-- The loop `while (!is_feasible)`, which has no iteration bound in the
source; `none` when the fuel is used up. -/
def repairLoop (d : GAPdata) (rng : Nat → Nat) : Nat → InitState → Option InitState
  | 0, s => if s.is_feasible then some s else none
  | fuel + 1, s =>
    if s.is_feasible then some s else repairLoop d rng fuel (repairRound d rng s)

/-- The function `random_init` of gap_MLS_swap.c.  `sol` is the caller's
array, `mem` the content of the block allocated for the local `rest_b`, `pos`
the position in the random stream; the result is the array `sol` and the new
position. -/
def random_init (d : GAPdata) (rng : Nat → Nat) (fuel : Nat) (sol : Nat → Nat)
    (mem : Nat → Int) (pos : Nat) : Option ((Nat → Nat) × Nat) :=
  let s0 : InitState :=
    { sol := sol, rest_b := initRest d mem, is_feasible := true, pos := pos }
  let s1 := forLoop (drawJob d rng) d.n s0
  (repairLoop d rng fuel s1).map (fun s => (s.sol, s.pos))

/-! ## gap_MLS_swap.c: pairwise-swap local search and restart controller -/

/-- Variables of `main` in gap_MLS_swap.c that live across iterations and
restarts, with the position `pos` in the random stream of the current seed. -/
structure MainState where
  count : Nat
  pre_val : Int
  new_val : Int
  best_cost : Int
  impr : Int
  new_bestsol : Nat → Nat
  rest_b : Nat → Int
  is_swap : Bool
  bestsol : Nat → Nat
  pos : Nat

/-- The value `swap_cost` of lines 343-348 for the job pair `a`, `b`. -/
def swap_cost (d : GAPdata) (sol : Nat → Nat) (rest_b : Nat → Int) (a b : Nat) : Int :=
  d.c (sol b) a + d.c (sol a) b
    + INFEASIBLE_COST
      * (max 0 (d.a (sol b) a - rest_b (sol b)) + max 0 (d.a (sol a) b - rest_b (sol a)))

/-- The value `cur_cost` of lines 350-355 for the job pair `a`, `b`. -/
def cur_cost (d : GAPdata) (sol : Nat → Nat) (rest_b : Nat → Int) (a b : Nat) : Int :=
  d.c (sol b) b + d.c (sol a) a
    + INFEASIBLE_COST
      * (max 0 (d.a (sol b) b - rest_b (sol b)) + max 0 (d.a (sol a) a - rest_b (sol a)))

/-- The block of lines 358-365: exchange the agents of jobs `a` and `b` and
adjust `rest_b` of the two agents, in the order of the source. -/
def applySwap (d : GAPdata) (a b : Nat) (s : MainState) : MainState :=
  let tmp := s.new_bestsol b
  let rest1 := Function.update s.rest_b tmp (s.rest_b tmp + (d.a tmp b - d.a tmp a))
  let rest2 := Function.update rest1 (s.new_bestsol a)
    (rest1 (s.new_bestsol a) + (d.a (s.new_bestsol a) a - d.a (s.new_bestsol a) b))
  let sol1 := Function.update s.new_bestsol b (s.new_bestsol a)
  let sol2 := Function.update sol1 a tmp
  { s with rest_b := rest2, new_bestsol := sol2, is_swap := true }

/-- The recomputation of lines 369-375: the raw cost loop followed by the
penalty loop `new_val -= INFEASIBLE_COST * min(0, rest_b[i])`. -/
def recomputeVal (d : GAPdata) (sol : Nat → Nat) (rest_b : Nat → Int) : Int :=
  let v := forLoop (fun j v => v + d.c (sol j) j) d.n 0
  forLoop (fun i v => v - INFEASIBLE_COST * min 0 (rest_b i)) d.m v

/-- Lines 357-366: the swap is applied when `cur_cost > swap_cost`. -/
def acceptStep (d : GAPdata) (a b : Nat) (s : MainState) : MainState :=
  if cur_cost d s.new_bestsol s.rest_b a b > swap_cost d s.new_bestsol s.rest_b a b then
    applySwap d a b s
  else s

/-- Lines 368-377: after a swap `new_val` is recomputed and `is_swap` cleared. -/
def refreshStep (d : GAPdata) (s : MainState) : MainState :=
  if s.is_swap then
    { s with new_val := recomputeVal d s.new_bestsol s.rest_b, is_swap := false }
  else s

/-- Lines 379-384: the no-improvement counter and the reference `pre_val`. -/
def countStep (s : MainState) : MainState :=
  if s.new_val ≥ s.pre_val then { s with impr := s.impr + 1 }
  else { s with pre_val := s.new_val, impr := 0 }

/-- One iteration of `while (impr < impr_lim)` once `a` and `b` are drawn
(lines 342-384); `a == b` is the `continue`. -/
def swapIter (d : GAPdata) (a b : Nat) (s : MainState) : MainState :=
  if a = b then s else countStep (refreshStep d (acceptStep d a b s))

/-- The loop `while (impr < impr_lim)` with `impr_lim = n * 5`; each iteration
draws `a` and `b` from the random stream.  `none` when the fuel is used up. -/
def swapLoop (d : GAPdata) (rng : Nat → Nat) : Nat → MainState → Option MainState
  | 0, s => if s.impr < (d.n : Int) * 5 then none else some s
  | fuel + 1, s =>
    if s.impr < (d.n : Int) * 5 then
      let a := rng s.pos % d.n
      let b := rng (s.pos + 1) % d.n
      swapLoop d rng fuel (swapIter d a b { s with pos := s.pos + 2 })
    else some s

/-- Modelled from the spec: the helper `is_feasible(rest_b, &gapdata)` called
at line 387 is not defined in the sources; section 4.1 gives `isFeasible(rest)`
as true iff every `rest[i] >= 0`. -/
def is_feasible (rest_b : Nat → Int) (d : GAPdata) : Bool :=
  decide (∀ i, i < d.m → 0 ≤ rest_b i)

/-- Lines 387-392: compare-and-update of the incumbent, with the copy loop
`bestsol[i] = new_bestsol[i]`. -/
def updateIncumbent (d : GAPdata) (s : MainState) : MainState :=
  if s.new_val < s.best_cost ∧ is_feasible s.rest_b d = true then
    { s with
      bestsol := forLoop (fun i bs => Function.update bs i (s.new_bestsol i)) d.n s.bestsol,
      best_cost := s.new_val }
  else s

/-- Lines 320-335: the start of a restart once `random_init` has returned
`sol` and left the stream at `pos`: reference value, counter, `rest_b`
rebuilt from `b`, penalty added to `pre_val`, `new_val = pre_val`. -/
def beginRestart (d : GAPdata) (sol : Nat → Nat) (pos : Nat) (s : MainState) : MainState :=
  let pre := calculate_cost sol d
  let rest := subtractLoads d sol (initRest d s.rest_b)
  let pre := forLoop (fun i v => v - INFEASIBLE_COST * min 0 (rest i)) d.m pre
  { s with
    count := s.count + 1, new_bestsol := sol, pre_val := pre, impr := 0,
    rest_b := rest, new_val := pre, pos := pos }

/-- One pass of the body of the time loop (lines 320-392): `count++`,
`srand(count)`, construction, local search, incumbent update.  `rand k` is
the stream produced after `srand(k)` and `heap k` the content of the block
that `random_init` allocates in restart `k`. -/
def restart (d : GAPdata) (rand : Nat → Nat → Nat) (heap : Nat → Nat → Int)
    (fuel : Nat) (s : MainState) : Option MainState :=
  let count := s.count + 1
  match random_init d (rand count) fuel s.new_bestsol (heap count) 0 with
  | none => none
  | some (sol, pos) =>
    match swapLoop d (rand count) fuel (beginRestart d sol pos s) with
    | none => none
    | some s2 => some (updateIncumbent d s2)

/-- The time loop performs some number `k` of restarts, fixed by the clock. -/
def run (d : GAPdata) (rand : Nat → Nat → Nat) (heap : Nat → Nat → Int)
    (fuel : Nat) : Nat → MainState → Option MainState
  | 0, s => some s
  | k + 1, s => (run d rand heap fuel k s).bind (restart d rand heap fuel)

/-- The state of `main` when the time loop is entered: `count = 0`,
`best_cost = INT_MAX`, `is_swap = false`; the arrays and the other scalars
hold whatever they hold. -/
def Initial (s : MainState) : Prop :=
  s.count = 0 ∧ s.best_cost = INT_MAX ∧ s.is_swap = false

/-- The state after `k` iterations of `while (impr < impr_lim)` from `s`, each
drawing `a` and `b` from the random stream; `none` if the loop has ended
before the `k`-th iteration. -/
def iterations (d : GAPdata) (rng : Nat → Nat) : Nat → MainState → Option MainState
  | 0, s => some s
  | k + 1, s =>
    (iterations d rng k s).bind (fun t =>
      if t.impr < (d.n : Int) * 5 then
        some (swapIter d (rng t.pos % d.n) (rng (t.pos + 1) % d.n) { t with pos := t.pos + 2 })
      else none)

end MLS

/-! ## gap.c: reassignment step and restart controller -/

namespace PolicyA

/-- The working arrays of the local search of gap.c. -/
structure Sol where
  new_bestsol : Nat → Nat
  rest_b : Nat → Int

/-- The value `swap_cost` of line 527. -/
def swap_cost (d : GAPdata) (s : Sol) (swap : Nat) : Int :=
  d.c (s.new_bestsol swap) swap - 2 * min 0 (s.rest_b (s.new_bestsol swap))

/-- The value `tmp_cost` of line 528. -/
def tmp_cost (d : GAPdata) (s : Sol) (j : Nat) : Int :=
  d.c (s.new_bestsol j) j - 2 * min 0 (s.rest_b (s.new_bestsol j))

/-- The block of lines 531-535, in the order of the source: job `j` takes the
agent of job `swap`; `rest_b[tmp] += a[tmp][j]`, then
`rest_b[new_bestsol[swap]] -= a[new_bestsol[swap]][swap]`. -/
def applyMove (d : GAPdata) (j swap : Nat) (s : Sol) : Sol :=
  let tmp := s.new_bestsol j
  let sol1 := Function.update s.new_bestsol j (s.new_bestsol swap)
  let rest1 := Function.update s.rest_b tmp (s.rest_b tmp + d.a tmp j)
  let rest2 := Function.update rest1 (sol1 swap) (rest1 (sol1 swap) - d.a (sol1 swap) swap)
  { new_bestsol := sol1, rest_b := rest2 }

/-- Lines 527-537: the body of the job loop for job `j` and candidate `swap`. -/
def reassignStep (d : GAPdata) (j swap : Nat) (s : Sol) : Sol :=
  if tmp_cost d s j > swap_cost d s swap then applyMove d j swap s else s

/-- Body of the repair loop over jobs of `random_init` in gap.c, for the
candidate agent `swap`; it differs from gap_MLS_swap.c in the test
`rest_b[swap] >= a[tmp][i]`. -/
def repairJob (d : GAPdata) (swap : Nat) (i : Nat) (s : MLS.InitState) : MLS.InitState :=
  let tmp := s.sol i
  if s.rest_b tmp > 0 then s
  else if d.a tmp i > d.a swap i ∨ s.rest_b swap ≥ d.a tmp i then
    let rest1 := Function.update s.rest_b tmp (s.rest_b tmp + d.a tmp i)
    let rest2 := Function.update rest1 swap (rest1 swap - d.a swap i)
    { s with sol := Function.update s.sol i swap, rest_b := rest2 }
  else s

/-- One round of `while (!is_feasible)` in `random_init` of gap.c. -/
def repairRound (d : GAPdata) (rng : Nat → Nat) (s : MLS.InitState) : MLS.InitState :=
  let swap := rng s.pos % d.m
  let s1 := forLoop (repairJob d swap) d.n { s with pos := s.pos + 1 }
  { s1 with is_feasible := MLS.checkFeasible d s1.rest_b }

/-- The loop `while (!is_feasible)` of `random_init` in gap.c; `none` when the
fuel is used up. -/
def repairLoop (d : GAPdata) (rng : Nat → Nat) : Nat → MLS.InitState → Option MLS.InitState
  | 0, s => if s.is_feasible then some s else none
  | fuel + 1, s =>
    if s.is_feasible then some s else repairLoop d rng fuel (repairRound d rng s)

/-- The function `random_init` of gap.c; its first loop and its feasibility
check are those of gap_MLS_swap.c, word for word. -/
def random_init (d : GAPdata) (rng : Nat → Nat) (fuel : Nat) (sol : Nat → Nat)
    (mem : Nat → Int) (pos : Nat) : Option ((Nat → Nat) × Nat) :=
  let s0 : MLS.InitState :=
    { sol := sol, rest_b := initRest d mem, is_feasible := true, pos := pos }
  let s1 := forLoop (MLS.drawJob d rng) d.n s0
  (repairLoop d rng fuel s1).map (fun s => (s.sol, s.pos))

/-- The incumbent of gap.c. -/
structure Incumbent where
  bestsol : Nat → Nat
  best_cost : Int

/-- Lines 541-544: `new_val` is the sum of `c[new_bestsol[i]][i]`. -/
def finalVal (d : GAPdata) (new_bestsol : Nat → Nat) : Int :=
  forLoop (fun i v => v + d.c (new_bestsol i) i) d.n 0

/-- Lines 554-559: compare-and-update of the incumbent at the end of a
restart whose final assignment is `new_bestsol` and final value `new_val`. -/
def updateIncumbent (d : GAPdata) (new_bestsol : Nat → Nat) (new_val : Int)
    (inc : Incumbent) : Incumbent :=
  if new_val < inc.best_cost then
    { bestsol := forLoop (fun i bs => Function.update bs i (new_bestsol i)) d.n inc.bestsol,
      best_cost := new_val }
  else inc

end PolicyA

/-- The arithmetic `greedy_init` runs on: `RAND_MAX`, and the roundings of an
exact value to `float` and to `double`.  Values are exact rationals and every
operation rounds its exact result as C does (`float` operands of a `double`
operation are promoted without change).  Division by zero, which C answers
with an infinity, is outside the model: it does not occur when every score
`2*c[i][j] + a[i][j]` is positive. -/
structure FloatEnv where
  RAND_MAX : Nat
  toFloat : ℚ → ℚ
  toDouble : ℚ → ℚ

/-- The score `vals[i] = 2 * c[i][j] + a[i][j]` of agent `i` for job `j`. -/
def vals (d : GAPdata) (j i : Nat) : Int := 2 * d.c i j + d.a i j

/-- The loop `sum += (1.0 / vals[i])` over the agents, from `sum = 0`: the
quotient and the addition are `double` operations, the store rounds to
`float`. -/
def scoreSum (env : FloatEnv) (d : GAPdata) (j : Nat) : ℚ :=
  forLoop
    (fun i sum => env.toFloat (env.toDouble (sum + env.toDouble (1 / (vals d j i : ℚ)))))
    d.m 0

/-- The statement `rnd = (float)rand() / (float)(RAND_MAX/sum)` for the value
`r` of `rand()`: `RAND_MAX/sum` is a `float` division of the converted
`RAND_MAX`, and so is the outer quotient. -/
def initialRnd (env : FloatEnv) (sum : ℚ) (r : Nat) : ℚ :=
  env.toFloat (env.toFloat (r : ℚ) / env.toFloat (env.toFloat (env.RAND_MAX : ℚ) / sum))

/-- Variables of the selection loop of `greedy_init` for one job: the
remainder `rnd`, the entry `sol[j]`, and whether `break` was taken. -/
structure Roulette where
  rnd : ℚ
  chosen : Nat
  broke : Bool

/-- Body of the selection loop: `rnd -= (1.0 / vals[i]); if (rnd < 0)
{ sol[j] = i; break; }`; after the `break` nothing more happens. -/
def rouletteStep (env : FloatEnv) (d : GAPdata) (j i : Nat) (s : Roulette) : Roulette :=
  if s.broke then s
  else
    let rnd := env.toFloat (env.toDouble (s.rnd - env.toDouble (1 / (vals d j i : ℚ))))
    if rnd < 0 then { rnd := rnd, chosen := i, broke := true } else { s with rnd := rnd }

/-- Body of the job loop of `greedy_init`: `sol[j] = INT_MAX`, the score sum,
the draw, the selection loop. -/
def greedyJob (env : FloatEnv) (d : GAPdata) (rng : Nat → Nat) (j : Nat)
    (p : (Nat → Nat) × Nat) : (Nat → Nat) × Nat :=
  let rnd := initialRnd env (scoreSum env d j) (rng p.2)
  let r := forLoop (rouletteStep env d j) d.m { rnd := rnd, chosen := 2147483647, broke := false }
  (Function.update p.1 j r.chosen, p.2 + 1)

/-- The function `greedy_init` of gap.c on the caller's array `sol`, reading
the random stream from position `pos`; the result is the array and the new
position. -/
def greedy_init (d : GAPdata) (env : FloatEnv) (rng : Nat → Nat) (sol : Nat → Nat)
    (pos : Nat) : (Nat → Nat) × Nat :=
  forLoop (greedyJob env d rng) d.n (sol, pos)

namespace PolicyA

/-- Variables of `main` in gap.c that live across iterations and restarts,
with the position `pos` in the random stream of the current seed. -/
structure MainState extends Sol, Incumbent where
  count : Nat
  pre_val : Int
  new_val : Int
  same : Int
  pos : Nat

/-- Body of `for (j = s; j < f; j++)` (lines 526-537): draw `swap`, then the
reassignment test for job `j`. -/
def jobStep (d : GAPdata) (rng : Nat → Nat) (j : Nat) (s : MainState) : MainState :=
  let swap := rng s.pos % d.n
  { s with toSol := reassignStep d j swap s.toSol, pos := s.pos + 1 }

/-- The loop `for (j = s; j < f; j++)`. -/
def forRange {σ : Type} (body : Nat → σ → σ) (s f : Nat) (st : σ) : σ :=
  forLoop (fun k => body (s + k)) (f - s) st

/-- One pass (lines 523-538) for the split point `rnd_start` and
`offset` 0 or 1: `s = rnd_start - offset*rnd_start`,
`f = n - offset*(n - rnd_start)`. -/
def pass (d : GAPdata) (rng : Nat → Nat) (rnd_start offset : Nat) (s : MainState) : MainState :=
  forRange (jobStep d rng) (rnd_start - offset * rnd_start)
    (d.n - offset * (d.n - rnd_start)) s

/-- One outer iteration of `while (same < same_lim)` (lines 520-551): the
split point, the two passes, `new_val` recomputed as the sum of the costs, and
the stagnation counter. -/
def sweep (d : GAPdata) (rng : Nat → Nat) (s : MainState) : MainState :=
  let rnd_start := rng s.pos % d.n
  let s1 := forLoop (fun offset st => pass d rng rnd_start offset st) 2
    { s with pos := s.pos + 1 }
  let v := finalVal d s1.new_bestsol
  if v = s1.pre_val then { s1 with new_val := v, same := s1.same + 1 }
  else { s1 with new_val := v, pre_val := v, same := 0 }

/-- The loop `while (same < same_lim)` with `same_lim = n * 3`; `none` when
the fuel is used up. -/
def searchLoop (d : GAPdata) (rng : Nat → Nat) : Nat → MainState → Option MainState
  | 0, s => if s.same < (d.n : Int) * 3 then none else some s
  | fuel + 1, s =>
    if s.same < (d.n : Int) * 3 then searchLoop d rng fuel (sweep d rng s) else some s

/-- Lines 506-517: the start of a restart once `greedy_init` has returned
`sol` and left the stream at `pos`. -/
def beginRestart (d : GAPdata) (sol : Nat → Nat) (pos : Nat) (s : MainState) : MainState :=
  { s with
    count := s.count + 1, new_bestsol := sol, pre_val := calculate_cost sol d, same := 0,
    rest_b := subtractLoads d sol (initRest d s.rest_b), pos := pos }

/-- Lines 554-559 on the state of `main`. -/
def finishRestart (d : GAPdata) (s : MainState) : MainState :=
  { s with toIncumbent := updateIncumbent d s.new_bestsol s.new_val s.toIncumbent }

/-- One pass of the body of the time loop of gap.c (lines 506-559):
`count++`, `srand(count)`, `greedy_init`, local search, incumbent update. -/
def restart (d : GAPdata) (env : FloatEnv) (rand : Nat → Nat → Nat) (fuel : Nat)
    (s : MainState) : Option MainState :=
  let g := greedy_init d env (rand (s.count + 1)) s.new_bestsol 0
  (searchLoop d (rand (s.count + 1)) fuel (beginRestart d g.1 g.2 s)).map (finishRestart d)

/-- The time loop of gap.c performs some number `k` of restarts, fixed by the
clock. -/
def run (d : GAPdata) (env : FloatEnv) (rand : Nat → Nat → Nat) (fuel : Nat) :
    Nat → MainState → Option MainState
  | 0, s => some s
  | k + 1, s => (run d env rand fuel k s).bind (restart d env rand fuel)

/-- The state of `main` of gap.c when the time loop is entered: `count = 0`
and `best_cost = INT_MAX`; everything else holds whatever it holds. -/
def Initial (s : MainState) : Prop :=
  s.count = 0 ∧ s.best_cost = INT_MAX

end PolicyA


/-! ## gap.c: reading the input and the parameters -/

/-- The input stream read with `fscanf(fp, "%d", &value_read)`: `pos` tokens
of the token list have been consumed, and `value_read` is the variable the
value is stored in. -/
structure ReadState where
  pos : Nat
  value_read : Int

/-- One call `fscanf(fp, "%d", &value_read)` on the token list `t`: the next
integer is stored and consumed; at the end of the input nothing is stored. -/
def fscanf (t : List Int) (s : ReadState) : ReadState :=
  match t[s.pos]? with
  | some x => { pos := s.pos + 1, value_read := x }
  | none => s

/-- The function `read_sol`: for each job `j` one value is read and
`bestsol[j] = value_read - 1`.  The array is the `int` array `bestsol`, whose
entries are whatever the file gives. -/
def read_sol (t : List Int) (d : GAPdata) (bestsol : Nat → Int) (s : ReadState) :
    (Nat → Int) × ReadState :=
  forLoop
    (fun j (p : (Nat → Int) × ReadState) =>
      let r := fscanf t p.2
      (Function.update p.1 j (r.value_read - 1), r))
    d.n (bestsol, s)

/-- The nested loops of `read_instance` that fill an `m × n` matrix row by
row: `for i < m`, `for j < n`, read a value and store it in `M[i][j]`. -/
def readMatrix (t : List Int) (m n : Nat) (M : Nat → Nat → Int) (s : ReadState) :
    (Nat → Nat → Int) × ReadState :=
  forLoop
    (fun i (p : (Nat → Nat → Int) × ReadState) =>
      forLoop
        (fun j (q : (Nat → Nat → Int) × ReadState) =>
          let r := fscanf t q.2
          (Function.update q.1 i (Function.update (q.1 i) j r.value_read), r))
        n p)
    m (M, s)

/-- The function `read_instance`.  `v0` is the initial content of
`value_read` and `memC`, `memA`, `memB` that of the allocated blocks.  The
fields `m` and `n` are `int` in the source; the loops `i < m`, `j < n` run
`toNat` of them many times, which is what the structure stores. -/
def read_instance (t : List Int) (v0 : Int) (memC memA : Nat → Nat → Int)
    (memB : Nat → Int) : GAPdata × ReadState :=
  let s1 := fscanf t { pos := 0, value_read := v0 }
  let m := s1.value_read.toNat
  let s2 := fscanf t s1
  let n := s2.value_read.toNat
  let pc := readMatrix t m n memC s2
  let pa := readMatrix t m n memA pc.2
  let pb := forLoop
    (fun i (p : (Nat → Int) × ReadState) =>
      let r := fscanf t p.2
      (Function.update p.1 i r.value_read, r))
    m (memB, pa.2)
  ({ n := n, m := m, c := pc.1, a := pa.1, b := pb.1 }, pb.2)

/-- The struct `Param`. -/
structure Param where
  timelim : Int
  givesol : Int

/-- The default `TIMELIM`. -/
def TIMELIM : Int := 300

/-- The default `GIVESOL`. -/
def GIVESOL : Int := 0

/-- Body of the parameter loop at index `i`: the two `strcmp` tests, each
storing `atoi(argv[i+1])`. -/
def paramStep (argv : List String) (atoi : String → Int) (i : Nat) (p : Param) : Param :=
  let p1 :=
    if argv.getD i "" = "timelim" then { p with timelim := atoi (argv.getD (i + 1) "") } else p
  if argv.getD i "" = "givesol" then { p1 with givesol := atoi (argv.getD (i + 1) "") } else p1

/-- The loop `for (i = 1; i < argc; i += 2)`, entered at index `i`; the first
argument bounds the number of iterations. -/
def paramLoop (argv : List String) (atoi : String → Int) (argc : Nat) :
    Nat → Nat → Param → Param
  | 0, _, p => p
  | fuel + 1, i, p =>
    if i < argc then paramLoop argv atoi argc fuel (i + 2) (paramStep argv atoi i p) else p

/-- The function `copy_parameters`, with `argc` the length of `argv` and
`atoi` the library conversion; `none` is the exit with the usage message. -/
def copy_parameters (argv : List String) (atoi : String → Int) : Option Param :=
  if argv.length > 0 ∧ argv.length % 2 = 0 then none
  else
    some (paramLoop argv atoi argv.length argv.length 1
      { timelim := TIMELIM, givesol := GIVESOL })

/-! ## Concrete instances used to evaluate the code -/

/-- Two jobs, two agents; the only non-zero entries are `c[1][0] = 8` and
`a[1][1] = 5`, and `b = [0, 7]`. -/
def swapData : GAPdata :=
  { n := 2, m := 2,
    c := fun i j => if i = 1 ∧ j = 0 then 8 else 0,
    a := fun i j => if i = 1 ∧ j = 1 then 5 else 0,
    b := fun i => if i = 1 then 7 else 0 }

/-- A state of the local search of gap_MLS_swap.c on `swapData`: job 0 on
agent 0, job 1 on agent 1, `rest_b = [0, 2]`, penalized cost 0. -/
def swapState : MLS.MainState :=
  { count := 1, pre_val := 0, new_val := 0, best_cost := INT_MAX, impr := 0,
    new_bestsol := fun j => if j = 1 then 1 else 0,
    rest_b := fun i => if i = 1 then 2 else 0,
    is_swap := false, bestsol := fun _ => 0, pos := 0 }

/-- Two jobs, two agents: `c[0][0] = 1` and every other cost 0; `a[1][1] = 2`
and every other requirement 1; `b = [5, 5]` (instance file
`2 2  1 0 0 0  1 1 1 2  5 5`). -/
def moveData : GAPdata :=
  { n := 2, m := 2,
    c := fun i j => if i = 0 ∧ j = 0 then 1 else 0,
    a := fun i j => if i = 1 ∧ j = 1 then 2 else 1,
    b := fun _ => 5 }

/-- A state of the local search of gap.c on `moveData`: job 0 on agent 0,
job 1 on agent 1, `rest_b = [4, 3]`. -/
def moveSol : PolicyA.Sol :=
  { new_bestsol := fun j => if j = 1 then 1 else 0,
    rest_b := fun i => if i = 1 then 3 else 4 }

/-- One job, one agent: `c[0][0] = 5`, `a[0][0] = 1`, `b[0] = 0` (instance file
`1 1 5 1 0`); the only assignment is infeasible. -/
def tightData : GAPdata :=
  { n := 1, m := 1, c := fun _ _ => 5, a := fun _ _ => 1, b := fun _ => 0 }

/-- The state of `main` of gap_MLS_swap.c on entry to the time loop, with the
arrays zero-filled. -/
def startState : MLS.MainState :=
  { count := 0, pre_val := 0, new_val := 0, best_cost := INT_MAX, impr := 0,
    new_bestsol := fun _ => 0, rest_b := fun _ => 0,
    is_swap := false, bestsol := fun _ => 0, pos := 0 }

/-- A random source for evaluation: after `srand(k)` the `s`-th value is
`k + s`. -/
def countingRand (k s : Nat) : Nat := k + s

/-- The end-to-end example of the specification: four jobs, three agents,
every cost and every requirement 1, every capacity `cap`. -/
def unitData (cap : Int) : GAPdata :=
  { n := 4, m := 3, c := fun _ _ => 1, a := fun _ _ => 1, b := fun _ => cap }

/-- A random stream whose values are `0, 0, 1, 0, 0, ...`. -/
def repairRand (s : Nat) : Nat := if s = 2 then 1 else 0

/-- One job, one agent: `c[0][0] = 0`, `a[0][0] = 1`, `b[0] = 1` (instance file
`1 1 0 1 1`); the score of the agent is 1. -/
def unitScoreData : GAPdata :=
  { n := 1, m := 1, c := fun _ _ => 0, a := fun _ _ => 1, b := fun _ => 1 }

/-- Exact arithmetic with the `RAND_MAX` of glibc: no rounding at all. -/
def exactEnv : FloatEnv :=
  { RAND_MAX := 2147483647, toFloat := fun x => x, toDouble := fun x => x }

/-- Two jobs, two agents, no cost, `a[0][0] = 2` and every other requirement
1, `b = [0, 0]` (instance file `2 2  0 0 0 0  2 1 1 1  0 0`). -/
def stallData : GAPdata :=
  { n := 2, m := 2, c := fun _ _ => 0,
    a := fun i j => if i = 0 ∧ j = 0 then 2 else 1, b := fun _ => 0 }

/-- A state of the local search of gap.c on `stallData`: job 0 on agent 0,
job 1 on agent 1, `rest_b = [-2, -1]`, reference value 0. -/
def stallState : PolicyA.MainState :=
  { new_bestsol := fun j => if j = 1 then 1 else 0,
    rest_b := fun i => if i = 0 then -2 else -1,
    bestsol := fun _ => 0, best_cost := INT_MAX,
    count := 1, pre_val := 0, new_val := 0, same := 0, pos := 0 }

/-- Two jobs, two agents, every requirement 1, `b = [10, 10]`, costs
`c[0][0] = 1`, `c[1][0] = 10` and 0 for job 1 (instance file
`2 2  1 0 10 0  1 1 1 1  10 10`); every score `2*c[i][j] + a[i][j]` is
positive. -/
def costlyData : GAPdata :=
  { n := 2, m := 2,
    c := fun i j => if j = 0 then (if i = 0 then 1 else 10) else 0,
    a := fun _ _ => 1, b := fun _ => 10 }

/-- A state of the local search of gap.c on `costlyData`: job 0 on agent 0,
job 1 on agent 1, `rest_b = [9, 9]`. -/
def costlySol : PolicyA.Sol :=
  { new_bestsol := fun j => if j = 1 then 1 else 0, rest_b := fun _ => 9 }

/-- Two jobs, two agents, `c[0][0] = 1` and every other cost 0, `a[1][0] = 5`
and every other requirement 1, `b = [1, 1]` (instance file
`2 2  1 0 0 0  1 1 5 1  1 1`); every score is positive. -/
def crowdData : GAPdata :=
  { n := 2, m := 2,
    c := fun i j => if i = 0 ∧ j = 0 then 1 else 0,
    a := fun i j => if i = 1 ∧ j = 0 then 5 else 1,
    b := fun _ => 1 }

/-- A state of the local search of gap.c on `crowdData`: job 0 on agent 0,
job 1 on agent 1, `rest_b = [0, 0]`. -/
def crowdSol : PolicyA.Sol :=
  { new_bestsol := fun j => if j = 1 then 1 else 0, rest_b := fun _ => 0 }

/-- Three jobs, two agents, `c[1][0] = c[1][1] = 10` and every other cost 0,
`a[0][2] = 6` and every other requirement 1, `b = [1, 5]` (instance file
`2 3  0 0 0 10 10 0  1 1 6 1 1 1  1 5`); every score is positive. -/
def heavyData : GAPdata :=
  { n := 3, m := 2,
    c := fun i j => if i = 1 ∧ (j = 0 ∨ j = 1) then 10 else 0,
    a := fun i j => if i = 0 ∧ j = 2 then 6 else 1,
    b := fun i => if i = 0 then 1 else 5 }

/-- A state of the local search of gap.c on `heavyData`: jobs 0 and 2 on
agent 0, job 1 on agent 1, `rest_b = [-6, 4]`. -/
def heavySol : PolicyA.Sol :=
  { new_bestsol := fun j => if j = 1 then 1 else 0,
    rest_b := fun i => if i = 0 then -6 else 4 }

/-- Two jobs, two agents, every requirement 1, no cost, `b = [1, 3]` (instance
file `2 2  0 0 0 0  1 1 1 1  1 3`). -/
def slackData : GAPdata :=
  { n := 2, m := 2, c := fun _ _ => 0, a := fun _ _ => 1,
    b := fun i => if i = 0 then 1 else 3 }

/-- Two jobs, two agents, no cost, `a = [[1, 1], [5, 1]]`, `b = [1, 3]`
(instance file `2 2  0 0 0 0  1 1 5 1  1 3`); job 0 on agent 0 and job 1 on
agent 1 is feasible. -/
def absorbData : GAPdata :=
  { n := 2, m := 2, c := fun _ _ => 0,
    a := fun i j => if i = 1 ∧ j = 0 then 5 else 1,
    b := fun i => if i = 0 then 1 else 3 }

/-- The state of `random_init` on instance `d` when the first round of the
repair loop starts its job loop: both jobs drawn with the stream `repairRand`
(onto agent 0) and the candidate agent `swap = 1` drawn. -/
def repairStart (d : GAPdata) : MLS.InitState :=
  let s1 := forLoop (MLS.drawJob d repairRand) d.n
    { sol := fun _ => 0, rest_b := initRest d (fun _ => 0), is_feasible := true, pos := 0 }
  { s1 with pos := s1.pos + 1 }

/-- Two jobs, one agent, costs 1, both requirements `INT_MAX`, capacity 0
(instance file `1 2  1 1  2147483647 2147483647  0`). -/
def hugeLoadData : GAPdata :=
  { n := 2, m := 1, c := fun _ _ => 1, a := fun _ _ => 2147483647, b := fun _ => 0 }

/-- A state of the local search of gap.c on `heavyData`: job 0 on agent 0,
jobs 1 and 2 on agent 1, `rest_b = [0, 3]`. -/
def idleSol : PolicyA.Sol :=
  { new_bestsol := fun j => if j = 0 then 0 else 1,
    rest_b := fun i => if i = 0 then 0 else 3 }

/-! ## Auxiliary lemmas on loops and sums -/

theorem forLoop_sum (f : Nat → Int) (k : Nat) (z : Int) :
    forLoop (fun i acc => acc + f i) k z = z + ∑ i in Finset.range k, f i := by
  induction k with
  | zero => simp [forLoop]
  | succ k ih => simp only [forLoop, ih, Finset.sum_range_succ]; ring

theorem assignedLoad_eq (d : GAPdata) (sol : Nat → Nat) (i : Nat) :
    assignedLoad d sol i = ∑ j in Finset.range d.n, if sol j = i then d.a i j else 0 := by
  unfold assignedLoad
  rw [Finset.sum_filter]

/-- Changing one cell `k < n` of an array changes a sum over `[0, n)` of a
function of the cells by the contribution of that cell. -/
theorem sum_update {β : Type} (h : β → Nat → Int) (f : Nat → β) (n k : Nat) (v : β)
    (hk : k < n) :
    ∑ j in Finset.range n, h (Function.update f k v j) j
      = (∑ j in Finset.range n, h (f j) j) - h (f k) k + h v k := by
  have hm : k ∈ Finset.range n := Finset.mem_range.mpr hk
  rw [← Finset.add_sum_erase _ _ hm,
    ← Finset.add_sum_erase (Finset.range n) (fun j => h (f j) j) hm]
  have hrest : ∑ j in (Finset.range n).erase k, h (Function.update f k v j) j
      = ∑ j in (Finset.range n).erase k, h (f j) j := by
    apply Finset.sum_congr rfl
    intro j hj
    rw [Function.update_noteq (Finset.ne_of_mem_erase hj)]
  rw [hrest]
  simp only [Function.update_same]
  ring

namespace MLS

theorem swapIter_sol_rest (d : GAPdata) (s : MainState) (a b : Nat) (hab : a ≠ b) :
    (swapIter d a b s).new_bestsol = (acceptStep d a b s).new_bestsol
      ∧ (swapIter d a b s).rest_b = (acceptStep d a b s).rest_b := by
  simp only [swapIter, if_neg hab, countStep, refreshStep]
  split_ifs <;> exact ⟨rfl, rfl⟩

end MLS

namespace PolicyA

/-- C2: evaluation of the reassignment step of gap.c (lines 526-537) on
`moveData`.  Before the step `rest_b` is consistent with the assignment and
the move of job 0 to the agent of job 1 is accepted; after it the code holds
`rest_b[1] = 1` while agent 1 really has `5 - (1 + 2) = 2` left, because line
535 subtracts `a[1][swap]` instead of `a[1][j]`. -/
theorem reassign_breaks_rest :
    InRange moveData moveSol.new_bestsol
      ∧ Consistent moveData moveSol.new_bestsol moveSol.rest_b
      ∧ tmp_cost moveData moveSol 0 > swap_cost moveData moveSol 1
      ∧ (reassignStep moveData 0 1 moveSol).rest_b 1 = 1
      ∧ trueRest moveData (reassignStep moveData 0 1 moveSol).new_bestsol 1 = 2
      ∧ ¬ Consistent moveData (reassignStep moveData 0 1 moveSol).new_bestsol
          (reassignStep moveData 0 1 moveSol).rest_b := by
  have hc : Consistent moveData moveSol.new_bestsol moveSol.rest_b := by
    intro i hi
    have hi2 : i < 2 := hi
    simp only [trueRest, assignedLoad_eq]
    interval_cases i <;> simp [moveData, moveSol, Finset.sum_range_succ]
  have hr : (reassignStep moveData 0 1 moveSol).rest_b 1 = 1 := by decide
  have ht : trueRest moveData (reassignStep moveData 0 1 moveSol).new_bestsol 1 = 2 := by
    simp only [trueRest, assignedLoad_eq]
    simp [reassignStep, applyMove, tmp_cost, swap_cost, Gap.min, moveData, moveSol,
      Finset.sum_range_succ, Function.update_apply]
  refine ⟨by decide, hc, by decide, hr, ht, ?_⟩
  intro h
  have h1 := h 1 (by decide)
  rw [hr, ht] at h1
  exact absurd h1 (by decide)

end PolicyA

namespace MLS

theorem cur_eq_swap_of_same_agent (d : GAPdata) (s : MainState) (a b : Nat)
    (h : s.new_bestsol a = s.new_bestsol b) :
    cur_cost d s.new_bestsol s.rest_b a b = swap_cost d s.new_bestsol s.rest_b a b := by
  simp only [cur_cost, swap_cost, h]
  ring

end MLS

/-! ## Incumbent update -/

/-- The copy loop `for (i = 0; i < n; i++) dst[i] = src[i];`. -/
theorem copyLoop_apply (src dst : Nat → Nat) (n j : Nat) :
    forLoop (fun i bs => Function.update bs i (src i)) n dst j
      = if j < n then src j else dst j := by
  induction n with
  | zero => simp [forLoop]
  | succ k ih =>
    simp only [forLoop, Function.update_apply, ih]
    split_ifs <;> first | rfl | omega | (subst_vars; rfl)

namespace MLS

theorem is_feasible_iff (rest_b : Nat → Int) (d : GAPdata) :
    is_feasible rest_b d = true ↔ ∀ i, i < d.m → 0 ≤ rest_b i := by
  simp [is_feasible]

/-- C4: at the end of a restart of gap_MLS_swap.c, with `is_feasible(rest_b)`
read as "every `rest_b[i] >= 0`": if `new_val < best_cost` and every
`rest_b[i] >= 0` then `bestsol[0..n)` becomes `new_bestsol[0..n)` and
`best_cost` becomes `new_val`; in every other case `bestsol` and `best_cost`
are exactly what they were.  Hence `best_cost` changes iff the condition
holds. -/
theorem incumbent_update_iff (d : GAPdata) (s : MainState) :
    ((s.new_val < s.best_cost ∧ ∀ i, i < d.m → 0 ≤ s.rest_b i) →
        (∀ j, j < d.n → (updateIncumbent d s).bestsol j = s.new_bestsol j)
          ∧ (∀ j, d.n ≤ j → (updateIncumbent d s).bestsol j = s.bestsol j)
          ∧ (updateIncumbent d s).best_cost = s.new_val)
      ∧ (¬ (s.new_val < s.best_cost ∧ ∀ i, i < d.m → 0 ≤ s.rest_b i) →
          (updateIncumbent d s).bestsol = s.bestsol
            ∧ (updateIncumbent d s).best_cost = s.best_cost)
      ∧ ((updateIncumbent d s).best_cost ≠ s.best_cost ↔
          (s.new_val < s.best_cost ∧ ∀ i, i < d.m → 0 ≤ s.rest_b i)) := by
  by_cases h : s.new_val < s.best_cost ∧ ∀ i, i < d.m → 0 ≤ s.rest_b i
  · have hg : s.new_val < s.best_cost ∧ is_feasible s.rest_b d = true :=
      ⟨h.1, (is_feasible_iff _ _).2 h.2⟩
    have e : updateIncumbent d s = { s with
        bestsol := forLoop (fun i bs => Function.update bs i (s.new_bestsol i)) d.n s.bestsol,
        best_cost := s.new_val } := by
      unfold updateIncumbent
      rw [if_pos hg]
    rw [e]
    refine ⟨fun _ => ⟨?_, ?_, rfl⟩, fun hn => absurd h hn, fun _ => h, fun _ => ?_⟩
    · intro j hj
      dsimp only
      rw [copyLoop_apply, if_pos hj]
    · intro j hj
      dsimp only
      rw [copyLoop_apply, if_neg (by omega)]
    · exact ne_of_lt h.1
  · have hg : ¬ (s.new_val < s.best_cost ∧ is_feasible s.rest_b d = true) := by
      rw [is_feasible_iff]
      exact h
    have e : updateIncumbent d s = s := by
      unfold updateIncumbent
      rw [if_neg hg]
    rw [e]
    exact ⟨fun hp => absurd hp h, fun _ => ⟨rfl, rfl⟩, fun hne => absurd rfl hne,
      fun hp => absurd hp h⟩

/-- Witness for C4 on `swapData`: from `swapState` (cost 0, `rest_b = [0, 2]`,
`best_cost = INT_MAX`) the incumbent takes the value 0. -/
theorem incumbent_update_iff_witness :
    (updateIncumbent swapData swapState).best_cost = 0
      ∧ (updateIncumbent swapData swapState).bestsol 1 = 1 :=
  have h := (incumbent_update_iff swapData swapState).1 ⟨by decide, by decide⟩
  ⟨h.2.2, h.1 1 (by decide)⟩

end MLS

namespace PolicyA

/-- C5: evaluation of the incumbent update of gap.c (lines 541-559) on
`tightData`, whose only assignment `[0]` needs 1 unit at an agent of capacity
0.  With `best_cost = INT_MAX` the final value 5 of the restart passes the
test `new_val < best_cost`, so the infeasible assignment becomes the
incumbent: no feasibility test guards the update. -/
theorem infeasible_incumbent_accepted :
    ¬ Feasible tightData (fun _ => 0)
      ∧ finalVal tightData (fun _ => 0) = 5
      ∧ (updateIncumbent tightData (fun _ => 0) (finalVal tightData (fun _ => 0))
          { bestsol := fun _ => 0, best_cost := INT_MAX }).best_cost = 5
      ∧ ¬ Feasible tightData
          (updateIncumbent tightData (fun _ => 0) (finalVal tightData (fun _ => 0))
            { bestsol := fun _ => 0, best_cost := INT_MAX }).bestsol := by
  have hinf : ∀ sol : Nat → Nat, sol 0 = 0 → ¬ Feasible tightData sol := by
    intro sol h0 hf
    have h := hf 0 (by decide)
    rw [assignedLoad_eq] at h
    simp only [tightData, Finset.sum_range_one, h0, if_true] at h
    omega
  refine ⟨hinf _ rfl, by decide, by decide, hinf _ (by decide)⟩

end PolicyA

/-! ## Evaluator: `calculate_cost` and `recompute_cost` -/

theorem calculate_cost_eq (sol : Nat → Nat) (d : GAPdata) :
    calculate_cost sol d = rawCost d sol := by
  simp only [calculate_cost, rawCost, forLoop_sum, zero_add]

theorem initLoop_apply (d : GAPdata) (r : Nat → Int) (k i : Nat) :
    forLoop (fun i r => Function.update r i (d.b i)) k r i = if i < k then d.b i else r i := by
  induction k with
  | zero => simp [forLoop]
  | succ k ih =>
    simp only [forLoop, Function.update_apply, ih]
    split_ifs <;> first | rfl | omega | (subst_vars; rfl)

theorem initRest_apply (d : GAPdata) (r : Nat → Int) (i : Nat) (hi : i < d.m) :
    initRest d r i = d.b i := by
  rw [initRest, initLoop_apply, if_pos hi]

theorem subtractLoop_apply (d : GAPdata) (sol : Nat → Nat) (r : Nat → Int) (k i : Nat) :
    forLoop (fun j r => Function.update r (sol j) (r (sol j) - d.a (sol j) j)) k r i
      = r i - ∑ j in Finset.range k, if sol j = i then d.a i j else 0 := by
  induction k with
  | zero => simp [forLoop]
  | succ k ih =>
    simp only [forLoop, Function.update_apply, Finset.sum_range_succ]
    split_ifs with h1 h2 h2
    · subst h1
      rw [ih]
      ring
    · exact absurd h1.symm h2
    · exact absurd h2.symm h1
    · rw [ih]
      ring

/-- The two loops that rebuild `rest_b` from `b` produce the remaining
capacity of the assignment at every agent. -/
theorem rebuilt_consistent (d : GAPdata) (sol : Nat → Nat) (r : Nat → Int) :
    Consistent d sol (subtractLoads d sol (initRest d r)) := by
  intro i hi
  rw [subtractLoads, subtractLoop_apply, trueRest, assignedLoad_eq, initRest_apply d r i hi]

/-- The job loop of `recompute_cost` runs the `rest_b` loop and the cost loop
side by side. -/
theorem jobLoop_pair (d : GAPdata) (sol : Nat → Nat) (r : Nat → Int) (k : Nat) :
    forLoop
        (fun j (s : (Nat → Int) × Int) =>
          (Function.update s.1 (sol j) (s.1 (sol j) - d.a (sol j) j), s.2 + d.c (sol j) j))
        k (r, 0)
      = (forLoop (fun j r => Function.update r (sol j) (r (sol j) - d.a (sol j) j)) k r,
         forLoop (fun i cost => cost + d.c (sol i) i) k 0) := by
  induction k with
  | zero => rfl
  | succ k ih => simp only [forLoop, ih]

theorem penalLoop_eq (rest : Nat → Int) (k : Nat) :
    forLoop (fun i penal => let temp := rest i; if temp < 0 then penal - temp else penal) k 0
      = ∑ i in Finset.range k, Max.max 0 (-rest i) := by
  have hb : (fun i (penal : Int) => let temp := rest i; if temp < 0 then penal - temp else penal)
      = fun i penal => penal + Max.max 0 (-rest i) := by
    funext i penal
    dsimp only
    split_ifs with h
    · rw [max_eq_right (by omega)]
      ring
    · rw [max_eq_left (by omega)]
      ring
  rw [hb, forLoop_sum, zero_add]

theorem recompute_cost_rest (bestsol : Nat → Nat) (d : GAPdata) (mem : Nat → Int) :
    (recompute_cost bestsol d mem).rest_b = subtractLoads d bestsol (initRest d mem) := by
  simp only [recompute_cost, jobLoop_pair, subtractLoads, initRest]

theorem recompute_cost_penal (bestsol : Nat → Nat) (d : GAPdata) (mem : Nat → Int) :
    (recompute_cost bestsol d mem).penal
      = capacityExcess d (subtractLoads d bestsol (initRest d mem)) := by
  simp only [recompute_cost, jobLoop_pair, penalLoop_eq, capacityExcess, subtractLoads, initRest]

theorem capacityExcess_congr (d : GAPdata) (r1 r2 : Nat → Int)
    (h : ∀ i, i < d.m → r1 i = r2 i) : capacityExcess d r1 = capacityExcess d r2 := by
  unfold capacityExcess
  apply Finset.sum_congr rfl
  intro i hi
  rw [h i (Finset.mem_range.mp hi)]

theorem capacityExcess_nonneg (d : GAPdata) (r : Nat → Int) : 0 ≤ capacityExcess d r := by
  unfold capacityExcess
  apply Finset.sum_nonneg
  intro i _
  exact le_max_left 0 _

/-- The capacity excess is positive exactly when some agent in `[0, m)` has a
negative remaining capacity. -/
theorem capacityExcess_pos_iff (d : GAPdata) (r : Nat → Int) :
    0 < capacityExcess d r ↔ ∃ i, i < d.m ∧ r i < 0 := by
  constructor
  · intro h
    by_contra hc
    have hall : ∀ i ∈ Finset.range d.m, Max.max 0 (-r i) = 0 := by
      intro i hi
      have : ¬ r i < 0 := fun hlt => hc ⟨i, Finset.mem_range.mp hi, hlt⟩
      exact max_eq_left (by omega)
    have h0 : capacityExcess d r = 0 := Finset.sum_eq_zero hall
    omega
  · rintro ⟨i, hi, hlt⟩
    unfold capacityExcess
    have hle : Max.max 0 (-r i) ≤ ∑ k in Finset.range d.m, Max.max 0 (-r k) :=
      Finset.single_le_sum (f := fun k => Max.max 0 (-r k))
        (fun k _ => le_max_left 0 _) (Finset.mem_range.mpr hi)
    have hpos : 0 < Max.max 0 (-r i) := lt_max_of_lt_right (by omega)
    omega

/-- On exact integers `recompute_cost` prints `INFEASIBLE!!` (`penal > 0`)
exactly when some agent's assigned requirement exceeds its capacity. -/
theorem recompute_cost_flag (d : GAPdata) (sol : Nat → Nat) (mem : Nat → Int) :
    ((recompute_cost sol d mem).infeasible = true
        ↔ ∃ i, i < d.m ∧ d.b i < assignedLoad d sol i)
      ∧ ((recompute_cost sol d mem).infeasible = false
        ↔ ∀ i, i < d.m → 0 ≤ (recompute_cost sol d mem).rest_b i)
      ∧ ((recompute_cost sol d mem).infeasible = false ↔ Feasible d sol) := by
  have hcons : Consistent d sol (recompute_cost sol d mem).rest_b := by
    rw [recompute_cost_rest]
    exact rebuilt_consistent d sol mem
  have hinf : (recompute_cost sol d mem).infeasible = true
      ↔ ∃ i, i < d.m ∧ (recompute_cost sol d mem).rest_b i < 0 := by
    have e : (recompute_cost sol d mem).infeasible
        = decide ((recompute_cost sol d mem).penal > 0) := rfl
    rw [e, decide_eq_true_iff, recompute_cost_penal, recompute_cost_rest]
    exact capacityExcess_pos_iff d _
  have hfalse : (recompute_cost sol d mem).infeasible = false
      ↔ ∀ i, i < d.m → 0 ≤ (recompute_cost sol d mem).rest_b i := by
    rw [← Bool.not_eq_true, hinf]
    push_neg
    rfl
  refine ⟨?_, hfalse, ?_⟩
  · rw [hinf]
    constructor
    · rintro ⟨i, hi, hlt⟩
      refine ⟨i, hi, ?_⟩
      have := hcons i hi
      unfold trueRest at this
      omega
    · rintro ⟨i, hi, hlt⟩
      refine ⟨i, hi, ?_⟩
      have := hcons i hi
      unfold trueRest at this
      omega
  · rw [hfalse]
    constructor
    · intro h i hi
      have h1 := h i hi
      have := hcons i hi
      unfold trueRest at this
      omega
    · intro h i hi
      have h1 := h i hi
      have := hcons i hi
      unfold trueRest at this
      omega

/-! ### The evaluator on 32-bit integers -/

namespace Machine

theorem wrap_of_range (x : Int) (h1 : INT_MIN ≤ x) (h2 : x ≤ INT_MAX) : wrap x = x := by
  unfold INT_MIN at h1
  unfold INT_MAX at h2
  unfold wrap
  omega

/-- The job loop of `recompute_cost` on 32-bit integers runs the `rest_b` loop
and the cost loop side by side. -/
theorem wrap_jobLoop_pair (d : GAPdata) (sol : Nat → Nat) (r : Nat → Int) (k : Nat) :
    forLoop
        (fun j (s : (Nat → Int) × Int) =>
          (Function.update s.1 (sol j) (wrap (s.1 (sol j) - d.a (sol j) j)),
           wrap (s.2 + d.c (sol j) j)))
        k (r, 0)
      = (forLoop (fun j r => Function.update r (sol j) (wrap (r (sol j) - d.a (sol j) j))) k r,
         forLoop (fun i cost => wrap (cost + d.c (sol i) i)) k 0) := by
  induction k with
  | zero => rfl
  | succ k ih => simp only [forLoop, ih]

/-- The `rest_b` loop on 32-bit integers is the exact one as long as every
intermediate value of every `rest_b[i]` is in range. -/
theorem wrap_restLoop_eq (d : GAPdata) (sol : Nat → Nat) (r : Nat → Int)
    (hsol : InRange d sol) (hr : ∀ i, i < d.m → r i = d.b i)
    (hrange : ∀ i, i < d.m → ∀ k1, k1 ≤ d.n →
      INT_MIN ≤ d.b i - ∑ j in Finset.range k1, (if sol j = i then d.a i j else 0)
        ∧ d.b i - ∑ j in Finset.range k1, (if sol j = i then d.a i j else 0) ≤ INT_MAX)
    (k : Nat) (hk : k ≤ d.n) :
    forLoop (fun j r => Function.update r (sol j) (wrap (r (sol j) - d.a (sol j) j))) k r
      = forLoop (fun j r => Function.update r (sol j) (r (sol j) - d.a (sol j) j)) k r := by
  induction k with
  | zero => rfl
  | succ k ih =>
    simp only [forLoop]
    rw [ih (Nat.le_of_succ_le hk)]
    have hlt : sol k < d.m := hsol k hk
    have hx := hrange (sol k) hlt (k + 1) hk
    rw [Finset.sum_range_succ, if_pos rfl] at hx
    have e : forLoop (fun j r => Function.update r (sol j) (r (sol j) - d.a (sol j) j)) k r (sol k)
          - d.a (sol k) k
        = d.b (sol k) - (∑ j in Finset.range k, (if sol j = sol k then d.a (sol k) j else 0)
            + d.a (sol k) k) := by
      rw [subtractLoop_apply, hr (sol k) hlt]
      ring
    rw [e, wrap_of_range _ hx.1 hx.2]

/-- The penalty loop on 32-bit integers is the exact sum as long as that sum
is at most `INT_MAX`. -/
theorem wrap_penalLoop_eq (rest : Nat → Int) (k : Nat)
    (h : ∑ i in Finset.range k, Max.max 0 (-rest i) ≤ INT_MAX) :
    forLoop (fun i penal => let temp := rest i; if temp < 0 then wrap (penal - temp) else penal)
        k 0
      = ∑ i in Finset.range k, Max.max 0 (-rest i) := by
  induction k with
  | zero => rfl
  | succ k ih =>
    have hnn : 0 ≤ ∑ i in Finset.range k, Max.max 0 (-rest i) :=
      Finset.sum_nonneg (fun i _ => le_max_left 0 _)
    have hm : 0 ≤ Max.max 0 (-rest k) := le_max_left 0 _
    rw [Finset.sum_range_succ] at h
    simp only [forLoop]
    rw [ih (by omega), Finset.sum_range_succ]
    by_cases hneg : rest k < 0
    · have e : Max.max 0 (-rest k) = -rest k := max_eq_right (by omega)
      rw [if_pos hneg]
      rw [e] at h ⊢
      have e2 : ∑ i in Finset.range k, Max.max 0 (-rest i) - rest k
          = ∑ i in Finset.range k, Max.max 0 (-rest i) + -rest k := by ring
      rw [e2]
      apply wrap_of_range
      · unfold INT_MIN
        omega
      · exact h
    · have e : Max.max 0 (-rest k) = 0 := max_eq_left (by omega)
      rw [if_neg hneg, e, add_zero]

/-- When no intermediate value of `rest_b` or `penal` leaves the `int` range,
`recompute_cost` on 32-bit integers computes the `rest_b`, the `penal` and
the verdict of the exact one. -/
theorem recompute_cost_exact (d : GAPdata) (sol : Nat → Nat) (mem : Nat → Int)
    (hsol : InRange d sol)
    (hrest : ∀ i, i < d.m → ∀ k, k ≤ d.n →
      INT_MIN ≤ d.b i - ∑ j in (Finset.range k).filter (fun j => sol j = i), d.a i j
        ∧ d.b i - ∑ j in (Finset.range k).filter (fun j => sol j = i), d.a i j ≤ INT_MAX)
    (hpen : capacityExcess d (trueRest d sol) ≤ INT_MAX) :
    (recompute_cost sol d mem).rest_b = (Gap.recompute_cost sol d mem).rest_b
      ∧ (recompute_cost sol d mem).penal = (Gap.recompute_cost sol d mem).penal
      ∧ (recompute_cost sol d mem).infeasible = (Gap.recompute_cost sol d mem).infeasible := by
  have hrest2 : ∀ i, i < d.m → ∀ k1, k1 ≤ d.n →
      INT_MIN ≤ d.b i - ∑ j in Finset.range k1, (if sol j = i then d.a i j else 0)
        ∧ d.b i - ∑ j in Finset.range k1, (if sol j = i then d.a i j else 0) ≤ INT_MAX := by
    intro i hi k1 hk1
    have := hrest i hi k1 hk1
    rw [Finset.sum_filter] at this
    exact this
  have hr : (recompute_cost sol d mem).rest_b = (Gap.recompute_cost sol d mem).rest_b := by
    simp only [recompute_cost, Gap.recompute_cost, wrap_jobLoop_pair, jobLoop_pair]
    exact wrap_restLoop_eq d sol _ hsol (fun i hi => by rw [initLoop_apply, if_pos hi])
      hrest2 d.n (le_refl _)
  have hp : (recompute_cost sol d mem).penal = (Gap.recompute_cost sol d mem).penal := by
    have e1 : (recompute_cost sol d mem).penal
        = forLoop (fun i penal =>
            let temp := (recompute_cost sol d mem).rest_b i
            if temp < 0 then wrap (penal - temp) else penal) d.m 0 := rfl
    have e2 : (Gap.recompute_cost sol d mem).penal
        = forLoop (fun i penal =>
            let temp := (Gap.recompute_cost sol d mem).rest_b i
            if temp < 0 then penal - temp else penal) d.m 0 := rfl
    rw [e1, e2, hr, penalLoop_eq]
    apply wrap_penalLoop_eq
    have e3 : ∑ i in Finset.range d.m, Max.max 0 (-(Gap.recompute_cost sol d mem).rest_b i)
        = capacityExcess d (trueRest d sol) := by
      rw [recompute_cost_rest]
      exact capacityExcess_congr d _ _ (rebuilt_consistent d sol mem)
    rw [e3]
    exact hpen
  refine ⟨hr, hp, ?_⟩
  have e1 : (recompute_cost sol d mem).infeasible
      = decide ((recompute_cost sol d mem).penal > 0) := rfl
  have e2 : (Gap.recompute_cost sol d mem).infeasible
      = decide ((Gap.recompute_cost sol d mem).penal > 0) := rfl
  rw [e1, e2, hp]

end Machine

/-- C8, refuted as stated: on `hugeLoadData` (one agent of capacity 0, two
jobs of requirement `INT_MAX`) with both jobs on agent 0, `rest_b[0]` wraps
from -2147483647 to 2, so `recompute_cost` leaves `penal = 0`, while
`max(0, -rest[0])` for `rest[0] = b[0] - Σ a[0][j]` is 4294967294. -/
theorem recompute_penal_overflows :
    InRange hugeLoadData (fun _ => 0)
      ∧ (Machine.recompute_cost (fun _ => 0) hugeLoadData (fun _ => 0)).rest_b 0 = 2
      ∧ (Machine.recompute_cost (fun _ => 0) hugeLoadData (fun _ => 0)).penal = 0
      ∧ ∑ i in Finset.range hugeLoadData.m,
          Max.max 0 (-(hugeLoadData.b i
            - ∑ j in (Finset.range hugeLoadData.n).filter (fun _ => 0 = i), hugeLoadData.a i j))
          = 4294967294 := by
  refine ⟨by decide, by decide, by decide, by decide⟩

/-- C8, amended: for every instance and every assignment with entries in
`[0, m)` such that every intermediate value of every `rest_b[i]` (`b[i]` minus
the requirements of the jobs among the first `k` that are assigned to `i`,
`k ≤ n`) lies in the `int` range and the total capacity excess is at most
`INT_MAX`, `recompute_cost` on 32-bit integers leaves in `rest_b[i]` the value
`b[i] - Σ a[i][j]` over the jobs assigned to `i`, and its `penal` is the sum
over the agents of `max(0, -rest[i])`; in particular `penal ≥ 0`. -/
theorem recompute_penal_in_range (d : GAPdata) (sol : Nat → Nat) (mem : Nat → Int)
    (hsol : InRange d sol)
    (hrest : ∀ i, i < d.m → ∀ k, k ≤ d.n →
      INT_MIN ≤ d.b i - ∑ j in (Finset.range k).filter (fun j => sol j = i), d.a i j
        ∧ d.b i - ∑ j in (Finset.range k).filter (fun j => sol j = i), d.a i j ≤ INT_MAX)
    (hpen : capacityExcess d (trueRest d sol) ≤ INT_MAX) :
    (∀ i, i < d.m → (Machine.recompute_cost sol d mem).rest_b i
        = d.b i - ∑ j in (Finset.range d.n).filter (fun j => sol j = i), d.a i j)
      ∧ (Machine.recompute_cost sol d mem).penal
        = ∑ i in Finset.range d.m,
            Max.max 0 (-(d.b i - ∑ j in (Finset.range d.n).filter (fun j => sol j = i), d.a i j))
      ∧ 0 ≤ (Machine.recompute_cost sol d mem).penal := by
  obtain ⟨hr, hp, _⟩ := Machine.recompute_cost_exact d sol mem hsol hrest hpen
  have h : (Machine.recompute_cost sol d mem).penal = capacityExcess d (trueRest d sol) := by
    rw [hp, recompute_cost_penal]
    exact capacityExcess_congr d _ _ (rebuilt_consistent d sol mem)
  refine ⟨?_, h, ?_⟩
  · intro i hi
    rw [hr, recompute_cost_rest]
    exact rebuilt_consistent d sol mem i hi
  · rw [h]
    exact capacityExcess_nonneg d _

/-- Witness for the amended C8 on `tightData`: the single job needs 1 unit at
an agent of capacity 0, so `rest_b[0] = -1` and the penalty is 1. -/
theorem recompute_penal_in_range_witness :
    (Machine.recompute_cost (fun _ => 0) tightData (fun _ => 0)).rest_b 0 = -1
      ∧ (Machine.recompute_cost (fun _ => 0) tightData (fun _ => 0)).penal = 1
      ∧ 0 ≤ (Machine.recompute_cost (fun _ => 0) tightData (fun _ => 0)).penal :=
  have h := recompute_penal_in_range tightData (fun _ => 0) (fun _ => 0) (by decide)
    (by decide) (by decide)
  ⟨(h.1 0 (by decide)).trans (by decide), by decide, h.2.2⟩

/-- C9, refuted as stated: on `hugeLoadData` with both jobs on agent 0 the
assigned requirement 4294967294 exceeds the capacity 0, but `rest_b[0]` wraps
to 2, `penal` stays 0 and `recompute_cost` does not print `INFEASIBLE!!`. -/
theorem recompute_misses_overload :
    InRange hugeLoadData (fun _ => 0)
      ∧ assignedLoad hugeLoadData (fun _ => 0) 0 = 4294967294
      ∧ hugeLoadData.b 0 < assignedLoad hugeLoadData (fun _ => 0) 0
      ∧ ¬ Feasible hugeLoadData (fun _ => 0)
      ∧ (Machine.recompute_cost (fun _ => 0) hugeLoadData (fun _ => 0)).infeasible = false
      ∧ 0 ≤ (Machine.recompute_cost (fun _ => 0) hugeLoadData (fun _ => 0)).rest_b 0 := by
  have hl : assignedLoad hugeLoadData (fun _ => 0) 0 = 4294967294 := by decide
  refine ⟨by decide, hl, by rw [hl]; decide, ?_, by decide, by decide⟩
  intro hf
  have h := hf 0 (by decide)
  rw [hl] at h
  exact absurd h (by decide)

/-- C9, amended: for every instance and every assignment with entries in
`[0, m)` such that every intermediate value of every `rest_b[i]` lies in the
`int` range and the total capacity excess is at most `INT_MAX`,
`recompute_cost` on 32-bit integers prints `INFEASIBLE!!` (`penal > 0`) if and
only if some agent's cumulative assigned requirement exceeds its capacity
`b[i]`; equivalently it reports feasible iff every `rest_b[i] ≥ 0`. -/
theorem recompute_infeasible_in_range (d : GAPdata) (sol : Nat → Nat) (mem : Nat → Int)
    (hsol : InRange d sol)
    (hrest : ∀ i, i < d.m → ∀ k, k ≤ d.n →
      INT_MIN ≤ d.b i - ∑ j in (Finset.range k).filter (fun j => sol j = i), d.a i j
        ∧ d.b i - ∑ j in (Finset.range k).filter (fun j => sol j = i), d.a i j ≤ INT_MAX)
    (hpen : capacityExcess d (trueRest d sol) ≤ INT_MAX) :
    ((Machine.recompute_cost sol d mem).infeasible = true
        ↔ ∃ i, i < d.m ∧ d.b i < assignedLoad d sol i)
      ∧ ((Machine.recompute_cost sol d mem).infeasible = false
        ↔ ∀ i, i < d.m → 0 ≤ (Machine.recompute_cost sol d mem).rest_b i)
      ∧ ((Machine.recompute_cost sol d mem).infeasible = false ↔ Feasible d sol) := by
  obtain ⟨hr, _, hi⟩ := Machine.recompute_cost_exact d sol mem hsol hrest hpen
  rw [hi, hr]
  exact recompute_cost_flag d sol mem

/-- Witness for the amended C9 on `tightData`, where `INFEASIBLE!!` is
printed. -/
theorem recompute_infeasible_in_range_witness :
    (Machine.recompute_cost (fun _ => 0) tightData (fun _ => 0)).infeasible = true
      ∧ ∃ i, i < tightData.m ∧ tightData.b i < assignedLoad tightData (fun _ => 0) i :=
  ⟨by decide,
   (recompute_infeasible_in_range tightData (fun _ => 0) (fun _ => 0) (by decide)
      (by decide) (by decide)).1.1 (by decide)⟩

/-! ## Penalized values and the restart loop of gap_MLS_swap.c -/

namespace MLS

theorem countStep_frame (s : MainState) :
    (countStep s).new_bestsol = s.new_bestsol ∧ (countStep s).rest_b = s.rest_b
      ∧ (countStep s).new_val = s.new_val ∧ (countStep s).is_swap = s.is_swap
      ∧ (countStep s).bestsol = s.bestsol ∧ (countStep s).best_cost = s.best_cost
      ∧ (0 ≤ s.impr → 0 ≤ (countStep s).impr) := by
  unfold countStep
  split_ifs
  · exact ⟨rfl, rfl, rfl, rfl, rfl, rfl, fun h => by dsimp only; omega⟩
  · exact ⟨rfl, rfl, rfl, rfl, rfl, rfl, fun _ => le_refl _⟩

end MLS

/-! ## The end-to-end examples of the specification -/

theorem recompute_cost_penal_true (sol : Nat → Nat) (d : GAPdata) (mem : Nat → Int) :
    (recompute_cost sol d mem).penal = capacityExcess d (trueRest d sol) := by
  rw [recompute_cost_penal]
  exact capacityExcess_congr d _ _ (rebuilt_consistent d sol mem)

theorem unitData_rawCost (cap : Int) (sol : Nat → Nat) : rawCost (unitData cap) sol = 4 := by
  simp [rawCost, unitData]

theorem unitData_load (cap : Int) (sol : Nat → Nat) (i : Nat) :
    assignedLoad (unitData cap) sol i
      = (((Finset.range 4).filter (fun j => sol j = i)).card : Int) := by
  simp [assignedLoad, unitData]

/-- C11: on the instance `n = 4`, `m = 3`, all `c[i][j] = 1`, all
`a[i][j] = 1`, `b = [2, 2, 2]`, every assignment with entries in `[0, 3)` has
raw cost 4 under `calculate_cost` and `recompute_cost`, and every assignment
that gives at most 2 jobs to each agent gets `penal = 0` from
`recompute_cost`, which then does not print `INFEASIBLE!!`. -/
theorem unit_instance_cost_four (sol : Nat → Nat) (mem : Nat → Int)
    (_hsol : InRange (unitData 2) sol) :
    calculate_cost sol (unitData 2) = 4
      ∧ (recompute_cost sol (unitData 2) mem).cost = 4
      ∧ ((∀ i, i < 3 → ((Finset.range 4).filter (fun j => sol j = i)).card ≤ 2) →
          (recompute_cost sol (unitData 2) mem).penal = 0
            ∧ (recompute_cost sol (unitData 2) mem).infeasible = false) := by
  have hc : calculate_cost sol (unitData 2) = 4 := by
    rw [calculate_cost_eq, unitData_rawCost]
  have hr : (recompute_cost sol (unitData 2) mem).cost = calculate_cost sol (unitData 2) := by
    simp only [recompute_cost, jobLoop_pair, calculate_cost]
  refine ⟨hc, hr.trans hc, fun hle => ?_⟩
  have hp : (recompute_cost sol (unitData 2) mem).penal = 0 := by
    rw [recompute_cost_penal_true]
    unfold capacityExcess
    apply Finset.sum_eq_zero
    intro i hi
    have hi3 : i < 3 := Finset.mem_range.mp hi
    have h2 := hle i hi3
    have hb : (unitData 2).b i = 2 := rfl
    rw [trueRest, unitData_load, hb]
    apply max_eq_left
    omega
  refine ⟨hp, ?_⟩
  have e : (recompute_cost sol (unitData 2) mem).infeasible
      = decide ((recompute_cost sol (unitData 2) mem).penal > 0) := rfl
  rw [e, hp]
  decide

/-- Witness for C11: jobs 0 and 1 on agent 0, job 2 on agent 1, job 3 on
agent 2. -/
theorem unit_instance_cost_four_witness :
    calculate_cost (fun j => j - 1) (unitData 2) = 4
      ∧ (recompute_cost (fun j => j - 1) (unitData 2) (fun _ => 0)).penal = 0 :=
  have h := unit_instance_cost_four (fun j => j - 1) (fun _ => 0) (by decide)
  ⟨h.1, (h.2.2 (by decide)).1⟩

/-- C12: on the instance `n = 4`, `m = 3`, all `c[i][j] = 1`, all
`a[i][j] = 1`, `b = [0, 0, 0]`, for every assignment with entries in `[0, 3)`
`recompute_cost` computes `penal = 4` and prints `INFEASIBLE!!`. -/
theorem zero_capacity_excess_four (sol : Nat → Nat) (mem : Nat → Int)
    (hsol : InRange (unitData 0) sol) :
    (recompute_cost sol (unitData 0) mem).penal = 4
      ∧ (recompute_cost sol (unitData 0) mem).infeasible = true := by
  have hp : (recompute_cost sol (unitData 0) mem).penal = 4 := by
    rw [recompute_cost_penal_true]
    unfold capacityExcess
    have hterm : ∀ i ∈ Finset.range (unitData 0).m,
        Max.max 0 (-trueRest (unitData 0) sol i)
          = (((Finset.range 4).filter (fun j => sol j = i)).card : Int) := by
      intro i _
      have hb : (unitData 0).b i = 0 := rfl
      rw [trueRest, unitData_load, hb]
      have e : -(0 - (((Finset.range 4).filter (fun j => sol j = i)).card : Int))
          = (((Finset.range 4).filter (fun j => sol j = i)).card : Int) := by ring
      rw [e]
      apply max_eq_right
      omega
    rw [Finset.sum_congr rfl hterm]
    have hfib := Finset.card_eq_sum_card_fiberwise (s := Finset.range 4) (t := Finset.range 3)
      (f := sol) (fun j hj => Finset.mem_range.mpr (hsol j (Finset.mem_range.mp hj)))
    have hm : (unitData 0).m = 3 := rfl
    rw [hm, ← Nat.cast_sum, ← hfib]
    simp
  refine ⟨hp, ?_⟩
  have e : (recompute_cost sol (unitData 0) mem).infeasible
      = decide ((recompute_cost sol (unitData 0) mem).penal > 0) := rfl
  rw [e, hp]
  decide

/-- Witness for C12: the four jobs on agents 0, 0, 1, 2. -/
theorem zero_capacity_excess_four_witness :
    (recompute_cost (fun j => j - 1) (unitData 0) (fun _ => 0)).penal = 4 :=
  (zero_capacity_excess_four (fun j => j - 1) (fun _ => 0) (by decide)).1

/-! ## Reading the input -/

theorem fscanf_of_lt (t : List Int) (s : ReadState) (h : s.pos < t.length) :
    ∃ x, t[s.pos]? = some x ∧ fscanf t s = { pos := s.pos + 1, value_read := x } := by
  refine ⟨t[s.pos], List.getElem?_eq_getElem h, ?_⟩
  unfold fscanf
  rw [List.getElem?_eq_getElem h]

/-- Reading `k` values into a one-dimensional array, each stored through `g`. -/
theorem readSeq_spec (t : List Int) (g : Int → Int) (arr : Nat → Int) (s : ReadState) :
    ∀ k, s.pos + k ≤ t.length →
      (forLoop
          (fun j (p : (Nat → Int) × ReadState) =>
            let r := fscanf t p.2
            (Function.update p.1 j (g r.value_read), r))
          k (arr, s)).2.pos = s.pos + k
        ∧ (∀ j, j < k → ∃ x, t[s.pos + j]? = some x ∧
            (forLoop
              (fun j (p : (Nat → Int) × ReadState) =>
                let r := fscanf t p.2
                (Function.update p.1 j (g r.value_read), r))
              k (arr, s)).1 j = g x)
        ∧ (∀ j, k ≤ j →
            (forLoop
              (fun j (p : (Nat → Int) × ReadState) =>
                let r := fscanf t p.2
                (Function.update p.1 j (g r.value_read), r))
              k (arr, s)).1 j = arr j) := by
  intro k
  induction k with
  | zero =>
    intro _
    exact ⟨rfl, fun j hj => absurd hj (Nat.not_lt_zero j), fun _ _ => rfl⟩
  | succ k ih =>
    intro hlen
    obtain ⟨hpos, hval, hrest⟩ := ih (by omega)
    simp only [forLoop]
    generalize forLoop
      (fun j (p : (Nat → Int) × ReadState) =>
        let r := fscanf t p.2
        (Function.update p.1 j (g r.value_read), r))
      k (arr, s) = st at hpos hval hrest
    obtain ⟨x, hx, hf⟩ := fscanf_of_lt t st.2 (by omega)
    rw [hpos] at hx
    simp only [hf]
    refine ⟨by omega, ?_, ?_⟩
    · intro j hj
      by_cases hjk : j = k
      · subst hjk
        exact ⟨x, hx, by simp⟩
      · obtain ⟨y, hy, hv⟩ := hval j (by omega)
        exact ⟨y, hy, by rw [Function.update_noteq hjk]; exact hv⟩
    · intro j hj
      rw [Function.update_noteq (by omega)]
      exact hrest j (by omega)

/-- C13: `read_sol` over the list `t` of integers of the input: when at least
`n` integers are there, `bestsol[j] = t[j] - 1` for every `j` in `[0, n)`, so
a value in `[1, m]` becomes an agent index in `[0, m)`; on the input
`2 1 3 1` with `n = 4` the result is `[1, 0, 2, 0]`. -/
theorem read_sol_decodes (t : List Int) (d : GAPdata) (bestsol : Nat → Int) (v0 : Int)
    (hlen : d.n ≤ t.length) :
    (∀ j, j < d.n → ∃ x, t[j]? = some x
        ∧ (read_sol t d bestsol { pos := 0, value_read := v0 }).1 j = x - 1
        ∧ (1 ≤ x → x ≤ d.m →
            0 ≤ (read_sol t d bestsol { pos := 0, value_read := v0 }).1 j
              ∧ (read_sol t d bestsol { pos := 0, value_read := v0 }).1 j < d.m))
      ∧ (read_sol [2, 1, 3, 1] (unitData 2) bestsol { pos := 0, value_read := v0 }).1 0 = 1
      ∧ (read_sol [2, 1, 3, 1] (unitData 2) bestsol { pos := 0, value_read := v0 }).1 1 = 0
      ∧ (read_sol [2, 1, 3, 1] (unitData 2) bestsol { pos := 0, value_read := v0 }).1 2 = 2
      ∧ (read_sol [2, 1, 3, 1] (unitData 2) bestsol { pos := 0, value_read := v0 }).1 3 = 0 := by
  refine ⟨?_, ?_, ?_, ?_, ?_⟩
  · intro j hj
    obtain ⟨_, hval, _⟩ := readSeq_spec t (fun x => x - 1) bestsol
      { pos := 0, value_read := v0 } d.n (by simpa using hlen)
    obtain ⟨x, hx, hv⟩ := hval j hj
    simp only [Nat.zero_add] at hx
    refine ⟨x, hx, hv, fun h1 h2 => ?_⟩
    have hv2 : (read_sol t d bestsol { pos := 0, value_read := v0 }).1 j = x - 1 := hv
    rw [hv2]
    omega
  all_goals simp [read_sol, unitData, forLoop, fscanf, Function.update_apply]

/-- Witness for C13 on the input `2 1 3 1` with `n = 4`, `m = 3`: the entry
of job 2 is the agent index 2, inside `[0, 3)`. -/
theorem read_sol_decodes_witness :
    ∃ x, ([2, 1, 3, 1] : List Int)[2]? = some x
      ∧ (read_sol [2, 1, 3, 1] (unitData 2) (fun _ => 0) { pos := 0, value_read := 0 }).1 2
          = x - 1 :=
  have h := (read_sol_decodes [2, 1, 3, 1] (unitData 2) (fun _ => 0) 0 (by decide)).1 2
    (by decide)
  h.elim fun x hx => ⟨x, hx.1, hx.2.1⟩

/-- Reading `k` values into row `i` of a matrix. -/
theorem readRow_spec (t : List Int) (i : Nat) (M : Nat → Nat → Int) (s : ReadState) :
    ∀ k, s.pos + k ≤ t.length →
      (forLoop
          (fun j (q : (Nat → Nat → Int) × ReadState) =>
            let r := fscanf t q.2
            (Function.update q.1 i (Function.update (q.1 i) j r.value_read), r))
          k (M, s)).2.pos = s.pos + k
        ∧ (∀ j, j < k → ∃ x, t[s.pos + j]? = some x ∧
            (forLoop
              (fun j (q : (Nat → Nat → Int) × ReadState) =>
                let r := fscanf t q.2
                (Function.update q.1 i (Function.update (q.1 i) j r.value_read), r))
              k (M, s)).1 i j = x)
        ∧ (∀ i2, i2 ≠ i →
            (forLoop
              (fun j (q : (Nat → Nat → Int) × ReadState) =>
                let r := fscanf t q.2
                (Function.update q.1 i (Function.update (q.1 i) j r.value_read), r))
              k (M, s)).1 i2 = M i2) := by
  intro k
  induction k with
  | zero =>
    intro _
    exact ⟨rfl, fun j hj => absurd hj (Nat.not_lt_zero j), fun _ _ => rfl⟩
  | succ k ih =>
    intro hlen
    obtain ⟨hpos, hval, hrest⟩ := ih (by omega)
    simp only [forLoop]
    generalize forLoop
      (fun j (q : (Nat → Nat → Int) × ReadState) =>
        let r := fscanf t q.2
        (Function.update q.1 i (Function.update (q.1 i) j r.value_read), r))
      k (M, s) = st at hpos hval hrest
    obtain ⟨x, hx, hf⟩ := fscanf_of_lt t st.2 (by omega)
    rw [hpos] at hx
    simp only [hf]
    refine ⟨by omega, ?_, ?_⟩
    · intro j hj
      by_cases hjk : j = k
      · subst hjk
        exact ⟨x, hx, by simp⟩
      · obtain ⟨y, hy, hv⟩ := hval j (by omega)
        refine ⟨y, hy, ?_⟩
        rw [Function.update_same, Function.update_noteq hjk]
        exact hv
    · intro i2 hi2
      rw [Function.update_noteq hi2]
      exact hrest i2 hi2

/-- Reading an `m × n` matrix row by row: entry `(i, j)` is the token at
offset `i * n + j` from the starting position. -/
theorem readMatrix_spec (t : List Int) (n : Nat) (M : Nat → Nat → Int) (s : ReadState) :
    ∀ m, s.pos + m * n ≤ t.length →
      (readMatrix t m n M s).2.pos = s.pos + m * n
        ∧ ∀ i j, i < m → j < n →
            ∃ x, t[s.pos + i * n + j]? = some x ∧ (readMatrix t m n M s).1 i j = x := by
  intro m
  induction m with
  | zero =>
    intro _
    exact ⟨by simp [readMatrix, forLoop], fun i j hi _ => absurd hi (Nat.not_lt_zero i)⟩
  | succ m ih =>
    intro hlen
    have hmn : (m + 1) * n = m * n + n := by ring
    obtain ⟨hpos, hval⟩ := ih (by omega)
    have e : readMatrix t (m + 1) n M s
        = forLoop
            (fun j (q : (Nat → Nat → Int) × ReadState) =>
              let r := fscanf t q.2
              (Function.update q.1 m (Function.update (q.1 m) j r.value_read), r))
            n (readMatrix t m n M s) := rfl
    rw [e]
    generalize readMatrix t m n M s = st at hpos hval
    obtain ⟨M1, s1⟩ := st
    obtain ⟨rpos, rval, rrest⟩ := readRow_spec t m M1 s1 n (by
      have : s1.pos = s.pos + m * n := hpos
      omega)
    have hp1 : s1.pos = s.pos + m * n := hpos
    refine ⟨by rw [rpos, hp1]; omega, ?_⟩
    intro i j hi hj
    by_cases him : i = m
    · subst him
      obtain ⟨x, hx, hv⟩ := rval j hj
      rw [hp1] at hx
      exact ⟨x, hx, hv⟩
    · obtain ⟨x, hx, hv⟩ := hval i j (by omega) hj
      refine ⟨x, hx, ?_⟩
      rw [rrest i him]
      exact hv

/-- C14: `read_instance` over the list `t` of integers of the input, holding
`m`, `n` and the `2 * m * n + m` values that follow: the fields are `m = t[0]`
and `n = t[1]`, and for every agent `i` in `[0, m)` and job `j` in `[0, n)`:
`c[i][j] = t[2 + i*n + j]`, `a[i][j] = t[2 + m*n + i*n + j]` and
`b[i] = t[2 + 2*m*n + i]`. -/
theorem read_instance_layout (t : List Int) (v0 : Int) (memC memA : Nat → Nat → Int)
    (memB : Nat → Int) (m n : Nat)
    (hm : t[0]? = some (m : Int)) (hn : t[1]? = some (n : Int))
    (hlen : 2 + 2 * m * n + m ≤ t.length) :
    (read_instance t v0 memC memA memB).1.m = m
      ∧ (read_instance t v0 memC memA memB).1.n = n
      ∧ (∀ i j, i < m → j < n →
          t[2 + i * n + j]? = some ((read_instance t v0 memC memA memB).1.c i j)
            ∧ t[2 + m * n + i * n + j]?
                = some ((read_instance t v0 memC memA memB).1.a i j))
      ∧ (∀ i, i < m →
          t[2 + 2 * m * n + i]? = some ((read_instance t v0 memC memA memB).1.b i)) := by
  have hs1 : fscanf t { pos := 0, value_read := v0 } = { pos := 1, value_read := (m : Int) } := by
    unfold fscanf
    simp only [hm]
  have hs2 : fscanf t { pos := 1, value_read := (m : Int) }
      = { pos := 2, value_read := (n : Int) } := by
    unfold fscanf
    simp only [hn]
  have hmul : 2 * m * n = m * n + m * n := by ring
  obtain ⟨cpos, cval⟩ := readMatrix_spec t n memC { pos := 2, value_read := (n : Int) } m
    (by show 2 + m * n ≤ t.length; omega)
  obtain ⟨apos, aval⟩ := readMatrix_spec t n memA
    (readMatrix t m n memC { pos := 2, value_read := (n : Int) }).2 m
    (by rw [cpos]; show 2 + m * n + m * n ≤ t.length; omega)
  obtain ⟨_, bval, _⟩ := readSeq_spec t (fun x => x) memB
    (readMatrix t m n memA (readMatrix t m n memC { pos := 2, value_read := (n : Int) }).2).2 m
    (by rw [apos, cpos]; show 2 + m * n + m * n + m ≤ t.length; omega)
  rw [apos, cpos] at bval
  rw [cpos] at aval
  simp only [read_instance, hs1, hs2, Int.toNat_ofNat]
  refine ⟨trivial, trivial, ?_, ?_⟩
  · intro i j hi hj
    obtain ⟨x, hx, hv⟩ := cval i j hi hj
    obtain ⟨y, hy, hw⟩ := aval i j hi hj
    exact ⟨by rw [hv]; exact hx, by rw [hw]; exact hy⟩
  · intro i hi
    obtain ⟨x, hx, hv⟩ := bval i hi
    have hidx : 2 + m * n + m * n + i = 2 + 2 * m * n + i := by omega
    rw [← hidx]
    have hv2 := hv
    simp only at hv2
    rw [hv2]
    exact hx

/-- Witness for C14 on the input `1 2  5 6  3 4  9`: one agent, two jobs,
costs `5 6`, requirements `3 4`, capacity `9`. -/
theorem read_instance_layout_witness :
    (read_instance [1, 2, 5, 6, 3, 4, 9] 0 (fun _ _ => 0) (fun _ _ => 0) (fun _ => 0)).1.m = 1
      ∧ ([1, 2, 5, 6, 3, 4, 9] : List Int)[2 + 0 * 2 + 1]?
          = some ((read_instance [1, 2, 5, 6, 3, 4, 9] 0 (fun _ _ => 0) (fun _ _ => 0)
              (fun _ => 0)).1.c 0 1) :=
  have h := read_instance_layout [1, 2, 5, 6, 3, 4, 9] 0 (fun _ _ => 0) (fun _ _ => 0)
    (fun _ => 0) 1 2 (by decide) (by decide) (by decide)
  ⟨h.1, (h.2.2.1 0 1 (by decide) (by decide)).1⟩

/-! ## Command-line parameters -/

theorem paramStep_timelim (argv : List String) (atoi : String → Int) (i : Nat) (p : Param) :
    (paramStep argv atoi i p).timelim
      = if argv.getD i "" = "timelim" then atoi (argv.getD (i + 1) "") else p.timelim := by
  unfold paramStep
  split_ifs <;> rfl

theorem paramStep_givesol (argv : List String) (atoi : String → Int) (i : Nat) (p : Param) :
    (paramStep argv atoi i p).givesol
      = if argv.getD i "" = "givesol" then atoi (argv.getD (i + 1) "") else p.givesol := by
  unfold paramStep
  split_ifs <;> rfl

theorem paramLoop_timelim_keep (argv : List String) (atoi : String → Int) (argc : Nat) :
    ∀ fuel i p,
      (∀ k, i ≤ k → k < argc → k % 2 = i % 2 → argv.getD k "" ≠ "timelim") →
      (paramLoop argv atoi argc fuel i p).timelim = p.timelim := by
  intro fuel
  induction fuel with
  | zero => intro i p _; rfl
  | succ fuel ih =>
    intro i p h
    unfold paramLoop
    split_ifs with hi
    · rw [ih (i + 2) _ (fun k h1 h2 h3 => h k (by omega) h2 (by omega)), paramStep_timelim,
        if_neg (h i (le_refl i) hi rfl)]
    · rfl

theorem paramLoop_givesol_keep (argv : List String) (atoi : String → Int) (argc : Nat) :
    ∀ fuel i p,
      (∀ k, i ≤ k → k < argc → k % 2 = i % 2 → argv.getD k "" ≠ "givesol") →
      (paramLoop argv atoi argc fuel i p).givesol = p.givesol := by
  intro fuel
  induction fuel with
  | zero => intro i p _; rfl
  | succ fuel ih =>
    intro i p h
    unfold paramLoop
    split_ifs with hi
    · rw [ih (i + 2) _ (fun k h1 h2 h3 => h k (by omega) h2 (by omega)), paramStep_givesol,
        if_neg (h i (le_refl i) hi rfl)]
    · rfl

theorem paramLoop_timelim_last (argv : List String) (atoi : String → Int) (argc : Nat) :
    ∀ fuel i p k, argc ≤ i + 2 * fuel → i ≤ k → k < argc → k % 2 = i % 2 →
      argv.getD k "" = "timelim" →
      (∀ k2, k < k2 → k2 < argc → k2 % 2 = i % 2 → argv.getD k2 "" ≠ "timelim") →
      (paramLoop argv atoi argc fuel i p).timelim = atoi (argv.getD (k + 1) "") := by
  intro fuel
  induction fuel with
  | zero => intro i p k h1 h2 h3; omega
  | succ fuel ih =>
    intro i p k hf hik hk hpar hname hlast
    unfold paramLoop
    rw [if_pos (by omega)]
    by_cases hki : k = i
    · subst hki
      rw [paramLoop_timelim_keep argv atoi argc fuel (k + 2) _
        (fun k2 h1 h2 h3 => hlast k2 (by omega) h2 (by omega)), paramStep_timelim, if_pos hname]
    · exact ih (i + 2) _ k (by omega) (by omega) hk (by omega) hname
        (fun k2 h1 h2 h3 => hlast k2 h1 h2 (by omega))

theorem paramLoop_givesol_last (argv : List String) (atoi : String → Int) (argc : Nat) :
    ∀ fuel i p k, argc ≤ i + 2 * fuel → i ≤ k → k < argc → k % 2 = i % 2 →
      argv.getD k "" = "givesol" →
      (∀ k2, k < k2 → k2 < argc → k2 % 2 = i % 2 → argv.getD k2 "" ≠ "givesol") →
      (paramLoop argv atoi argc fuel i p).givesol = atoi (argv.getD (k + 1) "") := by
  intro fuel
  induction fuel with
  | zero => intro i p k h1 h2 h3; omega
  | succ fuel ih =>
    intro i p k hf hik hk hpar hname hlast
    unfold paramLoop
    rw [if_pos (by omega)]
    by_cases hki : k = i
    · subst hki
      rw [paramLoop_givesol_keep argv atoi argc fuel (k + 2) _
        (fun k2 h1 h2 h3 => hlast k2 (by omega) h2 (by omega)), paramStep_givesol, if_pos hname]
    · exact ih (i + 2) _ k (by omega) (by omega) hk (by omega) hname
        (fun k2 h1 h2 h3 => hlast k2 h1 h2 (by omega))

/-- C19: `copy_parameters` exits with the usage message if and only if `argc`
is non-zero and even.  For every other `argc` it returns parameters `p` with
`timelim = 300` when no odd position holds the name `timelim`, and otherwise
`timelim = atoi(argv[i+1])` for the last odd position `i` holding that name;
likewise `givesol = 0` or the value after the last odd position named
`givesol`. -/
theorem copy_parameters_spec (argv : List String) (atoi : String → Int) :
    (copy_parameters argv atoi = none ↔ argv.length ≠ 0 ∧ argv.length % 2 = 0)
      ∧ (¬ (argv.length ≠ 0 ∧ argv.length % 2 = 0) →
          ∃ p, copy_parameters argv atoi = some p
            ∧ ((∀ i, i < argv.length → i % 2 = 1 → argv.getD i "" ≠ "timelim") →
                p.timelim = 300)
            ∧ (∀ i, i < argv.length → i % 2 = 1 → argv.getD i "" = "timelim" →
                (∀ k, i < k → k < argv.length → k % 2 = 1 → argv.getD k "" ≠ "timelim") →
                p.timelim = atoi (argv.getD (i + 1) ""))
            ∧ ((∀ i, i < argv.length → i % 2 = 1 → argv.getD i "" ≠ "givesol") →
                p.givesol = 0)
            ∧ (∀ i, i < argv.length → i % 2 = 1 → argv.getD i "" = "givesol" →
                (∀ k, i < k → k < argv.length → k % 2 = 1 → argv.getD k "" ≠ "givesol") →
                p.givesol = atoi (argv.getD (i + 1) ""))) := by
  constructor
  · unfold copy_parameters
    split_ifs with h
    · exact ⟨fun _ => ⟨by omega, h.2⟩, fun _ => rfl⟩
    · constructor
      · intro hc
        cases hc
      · intro hc
        exact absurd ⟨by omega, hc.2⟩ h
  · intro hne
    have hg : ¬ (argv.length > 0 ∧ argv.length % 2 = 0) := fun h => hne ⟨by omega, h.2⟩
    refine ⟨_, by unfold copy_parameters; rw [if_neg hg], ?_, ?_, ?_, ?_⟩
    · intro h
      rw [paramLoop_timelim_keep argv atoi _ _ 1 _ (fun k _ h2 h3 => h k h2 h3)]
      rfl
    · intro i hi hodd hname hlast
      exact paramLoop_timelim_last argv atoi _ _ 1 _ i (by omega) (by omega) hi hodd hname
        (fun k h1 h2 h3 => hlast k h1 h2 h3)
    · intro h
      rw [paramLoop_givesol_keep argv atoi _ _ 1 _ (fun k _ h2 h3 => h k h2 h3)]
      rfl
    · intro i hi hodd hname hlast
      exact paramLoop_givesol_last argv atoi _ _ 1 _ i (by omega) (by omega) hi hodd hname
        (fun k h1 h2 h3 => hlast k h1 h2 h3)

/-- Witness for C19: with the arguments `gap timelim 10 timelim 7` (`argc = 5`),
and the length of the string standing in for `atoi`, the second pair wins. -/
theorem copy_parameters_spec_witness :
    ∃ p, copy_parameters ["gap", "timelim", "10", "timelim", "7"]
        (fun s => (s.length : Int)) = some p
      ∧ p.timelim = 1 ∧ p.givesol = 0 :=
  have h := (copy_parameters_spec ["gap", "timelim", "10", "timelim", "7"]
    (fun s => (s.length : Int))).2 (by decide)
  h.elim fun p hp =>
    ⟨p, hp.1,
      hp.2.2.1 3 (by decide) (by decide) (by decide)
        (by intro k h1 h2 h3; have h5 : k < 5 := h2; omega),
      hp.2.2.2.1 (by decide)⟩

/-! ## The reassignment test of gap.c -/

namespace PolicyA

end PolicyA

/-! ## Random construction with repair -/

theorem forLoop_invariant {σ : Type} (P : σ → Prop) (body : Nat → σ → σ) (k : Nat) (s : σ)
    (hstep : ∀ i t, i < k → P t → P (body i t)) (h0 : P s) : P (forLoop body k s) := by
  induction k with
  | zero => exact h0
  | succ k ih =>
    exact hstep k _ (Nat.lt_succ_self k)
      (ih (fun i t hi ht => hstep i t (Nat.lt_succ_of_lt hi) ht))

namespace MLS

/-- After `k` rounds of the first loop of `random_init` the first `k` jobs
have agents in `[0, m)`. -/
theorem drawLoop_inRange (d : GAPdata) (rng : Nat → Nat) (s0 : InitState) (hm : 0 < d.m) :
    ∀ k j, j < k → (forLoop (drawJob d rng) k s0).sol j < d.m := by
  intro k
  induction k with
  | zero => intro j hj; omega
  | succ k ih =>
    intro j hj
    simp only [forLoop, drawJob, Function.update_apply]
    split_ifs with hjk
    · exact Nat.mod_lt _ hm
    · exact ih j (by omega)

theorem repairJob_inRange (d : GAPdata) (swap i : Nat) (s : InitState) (hs : swap < d.m)
    (h : InRange d s.sol) : InRange d (repairJob d swap i s).sol := by
  unfold repairJob
  dsimp only
  split_ifs
  · exact h
  · intro j hj
    simp only [Function.update_apply]
    split_ifs
    · exact hs
    · exact h j hj
  · exact h

theorem repairRound_inRange (d : GAPdata) (rng : Nat → Nat) (s : InitState) (hm : 0 < d.m)
    (h : InRange d s.sol) : InRange d (repairRound d rng s).sol := by
  have hl := forLoop_invariant (fun t : InitState => InRange d t.sol)
    (repairJob d (rng s.pos % d.m)) d.n { s with pos := s.pos + 1 }
    (fun i t _ ht => repairJob_inRange d (rng s.pos % d.m) i t (Nat.mod_lt _ hm) ht) h
  exact hl

theorem repairLoop_inRange (d : GAPdata) (rng : Nat → Nat) (hm : 0 < d.m) (fuel : Nat) :
    ∀ s s2, InRange d s.sol → repairLoop d rng fuel s = some s2 → InRange d s2.sol := by
  induction fuel with
  | zero =>
    intro s s2 h hr
    unfold repairLoop at hr
    split_ifs at hr
    cases hr
    exact h
  | succ fuel ih =>
    intro s s2 h hr
    unfold repairLoop at hr
    split_ifs at hr
    · cases hr
      exact h
    · exact ih _ s2 (repairRound_inRange d rng s hm h) hr

theorem random_init_inRange (d : GAPdata) (rng : Nat → Nat) (fuel : Nat) (sol : Nat → Nat)
    (mem : Nat → Int) (pos : Nat) (sol2 : Nat → Nat) (pos2 : Nat) (hm : 0 < d.m)
    (h : random_init d rng fuel sol mem pos = some (sol2, pos2)) : InRange d sol2 := by
  unfold random_init at h
  simp only [Option.map_eq_some'] at h
  obtain ⟨s2, hs2, he⟩ := h
  have hsol : s2.sol = sol2 := congrArg Prod.fst he
  rw [← hsol]
  exact repairLoop_inRange d rng hm fuel _ s2
    (fun j hj => drawLoop_inRange d rng _ hm d.n j hj) hs2

end MLS

namespace PolicyA

theorem repairJob_inRange_gapc (d : GAPdata) (swap i : Nat) (s : MLS.InitState) (hs : swap < d.m)
    (h : InRange d s.sol) : InRange d (repairJob d swap i s).sol := by
  unfold repairJob
  dsimp only
  split_ifs
  · exact h
  · intro j hj
    simp only [Function.update_apply]
    split_ifs
    · exact hs
    · exact h j hj
  · exact h

end PolicyA

namespace MLS

theorem applySwap_inRange (d : GAPdata) (s : MainState) (a b : Nat)
    (ha : a < d.n) (hb : b < d.n) (h : InRange d s.new_bestsol) :
    InRange d (applySwap d a b s).new_bestsol := by
  intro j hj
  simp only [applySwap, Function.update_apply]
  split_ifs
  · exact h b hb
  · exact h a ha
  · exact h j hj

theorem swapIter_inRange (d : GAPdata) (s : MainState) (a b : Nat)
    (ha : a < d.n) (hb : b < d.n) (h : InRange d s.new_bestsol) :
    InRange d (swapIter d a b s).new_bestsol := by
  by_cases hab : a = b
  · have e : swapIter d a b s = s := by
      unfold swapIter
      rw [if_pos hab]
    rw [e]
    exact h
  · rw [(swapIter_sol_rest d s a b hab).1]
    unfold acceptStep
    split_ifs
    · exact applySwap_inRange d s a b ha hb h
    · exact h

theorem swapIter_impr_nonneg (d : GAPdata) (s : MainState) (a b : Nat) (h : 0 ≤ s.impr) :
    0 ≤ (swapIter d a b s).impr := by
  unfold swapIter
  split_ifs
  · exact h
  · apply (countStep_frame _).2.2.2.2.2.2
    unfold refreshStep acceptStep
    split_ifs <;> exact h

theorem swapLoop_inRange (d : GAPdata) (rng : Nat → Nat) (fuel : Nat) :
    ∀ s s2 : MainState, 0 ≤ s.impr → InRange d s.new_bestsol →
      swapLoop d rng fuel s = some s2 → InRange d s2.new_bestsol := by
  induction fuel with
  | zero =>
    intro s s2 _ h hl
    unfold swapLoop at hl
    split_ifs at hl
    cases hl
    exact h
  | succ fuel ih =>
    intro s s2 hi h hl
    unfold swapLoop at hl
    split_ifs at hl with hlt
    · have hn : 0 < d.n := by omega
      exact ih _ s2
        (swapIter_impr_nonneg d { s with pos := s.pos + 2 } _ _ hi)
        (swapIter_inRange d { s with pos := s.pos + 2 } _ _
          (Nat.mod_lt _ hn) (Nat.mod_lt _ hn) h) hl
    · cases hl
      exact h

theorem updateIncumbent_inRange (d : GAPdata) (s : MainState)
    (h : InRange d s.new_bestsol) :
    (updateIncumbent d s).new_bestsol = s.new_bestsol
      ∧ (((updateIncumbent d s).bestsol = s.bestsol
          ∧ (updateIncumbent d s).best_cost = s.best_cost)
        ∨ ((updateIncumbent d s).best_cost < s.best_cost
          ∧ InRange d (updateIncumbent d s).bestsol)) := by
  unfold updateIncumbent
  split_ifs with hg
  · refine ⟨rfl, Or.inr ⟨hg.1, ?_⟩⟩
    intro j hj
    dsimp only
    rw [copyLoop_apply, if_pos hj]
    exact h j hj
  · exact ⟨rfl, Or.inl ⟨rfl, rfl⟩⟩

theorem swapIter_frame (d : GAPdata) (s : MainState) (a b : Nat) :
    (swapIter d a b s).bestsol = s.bestsol ∧ (swapIter d a b s).best_cost = s.best_cost := by
  unfold swapIter
  split_ifs
  · exact ⟨rfl, rfl⟩
  · obtain ⟨_, _, _, _, f5, f6, _⟩ := countStep_frame (refreshStep d (acceptStep d a b s))
    rw [f5, f6]
    unfold refreshStep acceptStep
    split_ifs <;> exact ⟨rfl, rfl⟩

theorem swapLoop_frame (d : GAPdata) (rng : Nat → Nat) (fuel : Nat) :
    ∀ s s2 : MainState, swapLoop d rng fuel s = some s2 →
      s2.bestsol = s.bestsol ∧ s2.best_cost = s.best_cost := by
  induction fuel with
  | zero =>
    intro s s2 hl
    unfold swapLoop at hl
    split_ifs at hl
    cases hl
    exact ⟨rfl, rfl⟩
  | succ fuel ih =>
    intro s s2 hl
    unfold swapLoop at hl
    split_ifs at hl
    · obtain ⟨h1, h2⟩ := ih _ s2 hl
      obtain ⟨f1, f2⟩ := swapIter_frame d { s with pos := s.pos + 2 }
        (rng s.pos % d.n) (rng (s.pos + 1) % d.n)
      exact ⟨h1.trans f1, h2.trans f2⟩
    · cases hl
      exact ⟨rfl, rfl⟩

/-- One restart ends with the working assignment in range and the incumbent
either untouched or replaced by an assignment in range at a lower cost. -/
theorem restart_inRange (d : GAPdata) (rand : Nat → Nat → Nat) (heap : Nat → Nat → Int)
    (fuel : Nat) (s s2 : MainState) (hm : 0 < d.m)
    (h : restart d rand heap fuel s = some s2) :
    InRange d s2.new_bestsol
      ∧ ((s2.bestsol = s.bestsol ∧ s2.best_cost = s.best_cost)
        ∨ (s2.best_cost < s.best_cost ∧ InRange d s2.bestsol)) := by
  unfold restart at h
  dsimp only at h
  split at h
  · cases h
  · rename_i sol pos hinit
    split at h
    · cases h
    · rename_i s1 hloop
      cases h
      have hr0 : InRange d (beginRestart d sol pos s).new_bestsol :=
        random_init_inRange d _ fuel _ _ 0 sol pos hm hinit
      have hr1 := swapLoop_inRange d _ fuel _ s1 (le_refl _) hr0 hloop
      obtain ⟨hb, hc⟩ := swapLoop_frame d _ fuel _ s1 hloop
      have hb1 : s1.bestsol = s.bestsol := hb
      have hc1 : s1.best_cost = s.best_cost := hc
      obtain ⟨u1, u2⟩ := updateIncumbent_inRange d s1 hr1
      rw [u1, ← hb1, ← hc1]
      exact ⟨hr1, u2⟩

theorem run_inRange (d : GAPdata) (rand : Nat → Nat → Nat) (heap : Nat → Nat → Int)
    (fuel : Nat) (s0 : MainState) (hm : 0 < d.m) (h0 : Initial s0) :
    ∀ (k : Nat) (st : MainState), run d rand heap fuel k s0 = some st →
      (k = 0 ∨ InRange d st.new_bestsol)
        ∧ st.best_cost ≤ INT_MAX
        ∧ ((st.best_cost = INT_MAX ∧ st.bestsol = s0.bestsol) ∨ InRange d st.bestsol) := by
  intro k
  induction k with
  | zero =>
    intro st h
    simp only [run, Option.some.injEq] at h
    subst h
    exact ⟨Or.inl rfl, le_of_eq h0.2.1, Or.inl ⟨h0.2.1, rfl⟩⟩
  | succ k ih =>
    intro st h
    simp only [run, Option.bind_eq_some] at h
    obtain ⟨sk, hk, hr⟩ := h
    obtain ⟨_, i2, i3⟩ := ih sk hk
    obtain ⟨r1, r2⟩ := restart_inRange d rand heap fuel sk st hm hr
    refine ⟨Or.inr r1, ?_, ?_⟩
    · rcases r2 with ⟨_, hc⟩ | ⟨hc, _⟩
      · rw [hc]
        exact i2
      · omega
    · rcases r2 with ⟨hb, hc⟩ | ⟨_, hin⟩
      · rw [hb, hc]
        exact i3
      · exact Or.inr hin

/-- C15: in gap_MLS_swap.c, for `m > 0` and every random stream: every entry
of the assignment returned by `random_init` lies in `[0, m)`; an iteration of
the pairwise-swap loop (drawn jobs `a`, `b` in `[0, n)`) keeps every entry in
`[0, m)`; hence after any number `k ≥ 1` of completed restarts the working
assignment has every entry in `[0, m)`, and the incumbent is either still the
initial array (never overwritten) or has every entry in `[0, m)`. -/
theorem assign_stays_in_range (d : GAPdata) (hm : 0 < d.m) :
    (∀ (rng : Nat → Nat) (fuel : Nat) (sol : Nat → Nat) (mem : Nat → Int) (pos : Nat)
        (sol2 : Nat → Nat) (pos2 : Nat),
        random_init d rng fuel sol mem pos = some (sol2, pos2) →
          ∀ j, j < d.n → sol2 j < d.m)
      ∧ (∀ (s : MainState) (a b : Nat), a < d.n → b < d.n →
          (∀ j, j < d.n → s.new_bestsol j < d.m) →
          ∀ j, j < d.n → (swapIter d a b s).new_bestsol j < d.m)
      ∧ (∀ (rand : Nat → Nat → Nat) (heap : Nat → Nat → Int) (fuel k : Nat)
          (s0 st : MainState), Initial s0 →
          run d rand heap fuel (k + 1) s0 = some st →
          (∀ j, j < d.n → st.new_bestsol j < d.m)
            ∧ ((st.best_cost = INT_MAX ∧ st.bestsol = s0.bestsol)
              ∨ ∀ j, j < d.n → st.bestsol j < d.m)) := by
  refine ⟨?_, ?_, ?_⟩
  · intro rng fuel sol mem pos sol2 pos2 h
    exact random_init_inRange d rng fuel sol mem pos sol2 pos2 hm h
  · intro s a b ha hb h
    exact swapIter_inRange d s a b ha hb h
  · intro rand heap fuel k s0 st h0 hrun
    obtain ⟨r1, _, r3⟩ := run_inRange d rand heap fuel s0 hm h0 (k + 1) st hrun
    refine ⟨?_, r3⟩
    rcases r1 with h | h
    · omega
    · exact h

/-- Witness for C15: after the first restart on `swapData` with the random
source `countingRand`, job 1 of the working assignment and of the incumbent
has an agent below `m = 2`. -/
theorem assign_stays_in_range_witness :
    ∃ st, run swapData countingRand (fun _ _ => 0) 12 1 startState = some st
      ∧ st.new_bestsol 1 < swapData.m
      ∧ ((st.best_cost = INT_MAX ∧ st.bestsol = startState.bestsol)
        ∨ ∀ j, j < swapData.n → st.bestsol j < swapData.m) := by
  have hsome : (run swapData countingRand (fun _ _ => 0) 12 1 startState).isSome = true := by
    decide!
  obtain ⟨st, hst⟩ := Option.isSome_iff_exists.mp hsome
  have h := (assign_stays_in_range swapData (by decide)).2.2 countingRand (fun _ _ => 0) 12 0
    startState st ⟨rfl, rfl, rfl⟩ hst
  exact ⟨st, hst, h.1 1 (by decide), h.2⟩

end MLS

/-! ## The roulette selection of `greedy_init` -/

/-- C16: evaluation of `greedy_init` of gap.c on `unitScoreData` (one agent of
score 1) when `rand()` returns `RAND_MAX`, for every rounding to `float` and
`double` that leaves 0 and 1 as they are and maps `RAND_MAX` to a non-zero
`float`: `sum = 1`, `rnd = 1`, and after `rnd -= 1.0` the remainder is exactly
0, so `rnd < 0` never holds and `sol[0]` keeps the placeholder `INT_MAX`,
which is not an agent index in `[0, m)`. -/
theorem greedy_placeholder_survives (env : FloatEnv) (sol : Nat → Nat)
    (hf0 : env.toFloat 0 = 0) (hf1 : env.toFloat 1 = 1)
    (hd0 : env.toDouble 0 = 0) (hd1 : env.toDouble 1 = 1)
    (hidem : env.toFloat (env.toFloat (env.RAND_MAX : ℚ)) = env.toFloat (env.RAND_MAX : ℚ))
    (hne : env.toFloat (env.RAND_MAX : ℚ) ≠ 0) :
    (greedy_init unitScoreData env (fun _ => env.RAND_MAX) sol 0).1 0 = 2147483647
      ∧ ¬ (greedy_init unitScoreData env (fun _ => env.RAND_MAX) sol 0).1 0
          < unitScoreData.m := by
  have hv : (vals unitScoreData 0 0 : ℚ) = 1 := by
    simp [vals, unitScoreData]
  have hm : unitScoreData.m = 1 := rfl
  have hn : unitScoreData.n = 1 := rfl
  have hsum : scoreSum env unitScoreData 0 = 1 := by
    simp only [scoreSum, hm, forLoop, hv]
    norm_num [hd1, hf1]
  have hrnd : initialRnd env 1 env.RAND_MAX = 1 := by
    simp only [initialRnd, div_one, hidem]
    rw [div_self hne, hf1]
  have e : (greedy_init unitScoreData env (fun _ => env.RAND_MAX) sol 0).1 0 = 2147483647 := by
    simp only [greedy_init, hn, hm, forLoop, greedyJob, Function.update_same, hsum, hrnd]
    simp [rouletteStep, hv, hd1, hd0, hf0]
  refine ⟨e, ?_⟩
  rw [e]
  decide

/-- Witness for C16 in exact arithmetic with `RAND_MAX = 2147483647`. -/
theorem greedy_placeholder_survives_witness :
    (greedy_init unitScoreData exactEnv (fun _ => exactEnv.RAND_MAX) (fun _ => 0) 0).1 0
      = 2147483647 :=
  (greedy_placeholder_survives exactEnv (fun _ => 0) rfl rfl rfl rfl rfl
    (by simp [exactEnv])).1

/-! ## Restart independence: gap_MLS_swap.c -/

namespace MLS

end MLS

namespace MLS

end MLS

/-! ## Restart independence: gap.c -/

namespace PolicyA

end PolicyA

namespace MLS

end MLS

namespace PolicyA

end PolicyA

namespace PolicyA

end PolicyA

/-! ## The two passes of gap.c -/

namespace PolicyA

/-- The loop `for (j = s; j < f; j++)` applies its body to `s, s+1, ..., f-1`
in this order. -/
theorem forRange_foldl {σ : Type} (body : Nat → σ → σ) (s f : Nat) (st : σ) :
    forRange body s f st = List.foldl (fun st j => body j st) st (List.range' s (f - s)) := by
  unfold forRange
  generalize f - s = k
  induction k with
  | zero => rfl
  | succ k ih =>
    rw [List.range'_concat, List.foldl_append]
    simp only [forLoop, ih, List.foldl_cons, List.foldl_nil, Nat.one_mul]

/-- C22: in gap.c, for `n > 0` and a split point `rnd_start` in `[0, n)`, the
pass with `offset = 0` runs the job step on `rnd_start, ..., n-1` and the pass
with `offset = 1` on `0, ..., rnd_start-1`; the two index ranges are
`[rnd_start, n)` and `[0, rnd_start)`, and one after the other they list every
job index of `[0, n)` exactly once. -/
theorem passes_visit_each_job_once (d : GAPdata) (rng : Nat → Nat) (r : Nat) (s : MainState)
    (_hn : 0 < d.n) (hr : r < d.n) :
    pass d rng r 0 s
        = List.foldl (fun st j => jobStep d rng j st) s (List.range' r (d.n - r))
      ∧ pass d rng r 1 s = List.foldl (fun st j => jobStep d rng j st) s (List.range' 0 r)
      ∧ forLoop (fun offset st => pass d rng r offset st) 2 s
          = List.foldl (fun st j => jobStep d rng j st) s
              (List.range' r (d.n - r) ++ List.range' 0 r)
      ∧ (∀ j, j ∈ List.range' r (d.n - r) ↔ r ≤ j ∧ j < d.n)
      ∧ (∀ j, j ∈ List.range' 0 r ↔ j < r)
      ∧ (∀ j, j ∈ List.range' r (d.n - r) → j ∉ List.range' 0 r)
      ∧ (List.range' r (d.n - r) ++ List.range' 0 r).Perm (List.range d.n)
      ∧ (List.range' r (d.n - r) ++ List.range' 0 r).Nodup := by
  have h0 : ∀ u, pass d rng r 0 u
      = List.foldl (fun st j => jobStep d rng j st) u (List.range' r (d.n - r)) := by
    intro u
    unfold pass
    rw [forRange_foldl]
    simp
  have h1 : ∀ u, pass d rng r 1 u
      = List.foldl (fun st j => jobStep d rng j st) u (List.range' 0 r) := by
    intro u
    unfold pass
    rw [forRange_foldl]
    have e1 : r - 1 * r = 0 := by omega
    have e2 : d.n - 1 * (d.n - r) = r := by omega
    rw [e1, e2, Nat.sub_zero]
  have hmem0 : ∀ j, j ∈ List.range' r (d.n - r) ↔ r ≤ j ∧ j < d.n := by
    intro j
    rw [List.mem_range'_1]
    constructor
    · rintro ⟨a, b⟩
      exact ⟨a, by omega⟩
    · rintro ⟨a, b⟩
      exact ⟨a, by omega⟩
  have hmem1 : ∀ j, j ∈ List.range' 0 r ↔ j < r := by
    intro j
    rw [List.mem_range'_1]
    constructor
    · rintro ⟨_, b⟩
      omega
    · intro b
      exact ⟨Nat.zero_le j, by omega⟩
  have hperm : (List.range' r (d.n - r) ++ List.range' 0 r).Perm (List.range d.n) := by
    have e : List.range d.n = List.range' 0 r ++ List.range' r (d.n - r) := by
      rw [List.range_eq_range']
      have := List.range'_append 0 r (d.n - r) 1
      simp only [Nat.zero_add, Nat.one_mul] at this
      rw [this]
      congr 1
      omega
    rw [e]
    exact List.perm_append_comm
  refine ⟨h0 s, h1 s, ?_, hmem0, hmem1, ?_, hperm, ?_⟩
  · simp only [forLoop]
    rw [h1, h0, List.foldl_append]
  · intro j hj hj1
    have a := (hmem0 j).1 hj
    have b := (hmem1 j).1 hj1
    omega
  · exact (List.Perm.nodup_iff hperm).2 (List.nodup_range d.n)

/-- Witness for C22 on `stallData` with split point 1: the passes visit job 1,
then job 0. -/
theorem passes_visit_each_job_once_witness :
    forLoop (fun offset st => pass stallData (fun _ => 1) 1 offset st) 2 stallState
      = List.foldl (fun st j => jobStep stallData (fun _ => 1) j st) stallState
          (List.range' 1 (stallData.n - 1) ++ List.range' 0 1) :=
  (passes_visit_each_job_once stallData (fun _ => 1) 1 stallState (by decide) (by decide)).2.2.1

end PolicyA

/-! ## The reassignment of gap.c and the total penalized cost -/

/-- The capacity excess after two cells `p ≠ q` of `rest` inside `[0, m)` are
overwritten. -/
theorem capacityExcess_update2 (d : GAPdata) (g : Nat → Int) (p q : Nat) (v1 v2 : Int)
    (hpq : p ≠ q) (hp : p < d.m) (hq : q < d.m) :
    capacityExcess d (Function.update (Function.update g p v1) q v2)
      = capacityExcess d g - Max.max 0 (-g p) + Max.max 0 (-v1)
        - Max.max 0 (-g q) + Max.max 0 (-v2) := by
  simp only [capacityExcess]
  rw [sum_update (fun x _ => Max.max 0 (-x)) _ d.m q v2 hq,
    sum_update (fun x _ => Max.max 0 (-x)) _ d.m p v1 hp]
  simp only [Function.update_apply, if_neg (Ne.symm hpq)]

/-- The remaining capacity of every agent after job `j < n` is given to agent
`v`. -/
theorem trueRest_update (d : GAPdata) (sol : Nat → Nat) (j v i : Nat) (hj : j < d.n) :
    trueRest d (Function.update sol j v) i
      = trueRest d sol i + (if sol j = i then d.a i j else 0)
        - (if v = i then d.a i j else 0) := by
  simp only [trueRest, assignedLoad_eq]
  rw [sum_update (fun x k => if x = i then d.a i k else 0) sol d.n j v hj]
  ring

namespace PolicyA

theorem applyMove_sol (d : GAPdata) (j swap : Nat) (s : Sol) :
    (applyMove d j swap s).new_bestsol = Function.update s.new_bestsol j (s.new_bestsol swap) :=
  rfl

/-- C23, refuted as stated, on three instances with non-negative `c` and `a`,
positive scores `2*c[i][j] + a[i][j]`, entries in range and a consistent
`rest_b`; in each the step `j = 0`, `swap = 1` is accepted and moves job 0 to
agent 1.  On `costlyData` (`tmp_cost = 1 > 0 = swap_cost`) no capacity is
exceeded before or after, but job 0 costs `c[1][0] = 10` at agent 1 and
`rawCost + 2 * capacityExcess` goes from 1 to 10.  On `crowdData`
(`tmp_cost = 1 > 0 = swap_cost`) job 0 costs nothing at agent 1 but needs 5
units where none is left, and the value goes from 1 to 10.  On `heavyData`
(`tmp_cost = 12 > 10 = swap_cost`) agent 1 has room and job 0 costs there what
job 1 does, but agent 0 stays over capacity, and the value goes from 22 to
30. -/
theorem reassign_not_monotone :
    ((∀ i j, 0 ≤ costlyData.c i j) ∧ (∀ i j, 0 ≤ costlyData.a i j)
        ∧ (∀ i j, 0 < vals costlyData j i)
        ∧ InRange costlyData costlySol.new_bestsol
        ∧ Consistent costlyData costlySol.new_bestsol costlySol.rest_b
        ∧ tmp_cost costlyData costlySol 0 > swap_cost costlyData costlySol 1
        ∧ (reassignStep costlyData 0 1 costlySol).new_bestsol 0 = 1
        ∧ ¬ costlyData.c 1 0 ≤ costlyData.c 1 1
        ∧ costlyData.a 1 0 ≤ costlySol.rest_b 1
        ∧ 0 ≤ costlySol.rest_b 0 + costlyData.a 0 0
        ∧ penalizedCost costlyData costlySol.new_bestsol
            (trueRest costlyData costlySol.new_bestsol) 2 = 1
        ∧ penalizedCost costlyData (reassignStep costlyData 0 1 costlySol).new_bestsol
            (trueRest costlyData (reassignStep costlyData 0 1 costlySol).new_bestsol) 2 = 10)
      ∧ ((∀ i j, 0 ≤ crowdData.c i j) ∧ (∀ i j, 0 ≤ crowdData.a i j)
        ∧ (∀ i j, 0 < vals crowdData j i)
        ∧ InRange crowdData crowdSol.new_bestsol
        ∧ Consistent crowdData crowdSol.new_bestsol crowdSol.rest_b
        ∧ tmp_cost crowdData crowdSol 0 > swap_cost crowdData crowdSol 1
        ∧ (reassignStep crowdData 0 1 crowdSol).new_bestsol 0 = 1
        ∧ crowdData.c 1 0 ≤ crowdData.c 1 1
        ∧ ¬ crowdData.a 1 0 ≤ crowdSol.rest_b 1
        ∧ 0 ≤ crowdSol.rest_b 0 + crowdData.a 0 0
        ∧ penalizedCost crowdData crowdSol.new_bestsol
            (trueRest crowdData crowdSol.new_bestsol) 2 = 1
        ∧ penalizedCost crowdData (reassignStep crowdData 0 1 crowdSol).new_bestsol
            (trueRest crowdData (reassignStep crowdData 0 1 crowdSol).new_bestsol) 2 = 10)
      ∧ ((∀ i j, 0 ≤ heavyData.c i j) ∧ (∀ i j, 0 ≤ heavyData.a i j)
        ∧ (∀ i j, 0 < vals heavyData j i)
        ∧ InRange heavyData heavySol.new_bestsol
        ∧ Consistent heavyData heavySol.new_bestsol heavySol.rest_b
        ∧ tmp_cost heavyData heavySol 0 > swap_cost heavyData heavySol 1
        ∧ (reassignStep heavyData 0 1 heavySol).new_bestsol 0 = 1
        ∧ heavyData.c 1 0 ≤ heavyData.c 1 1
        ∧ heavyData.a 1 0 ≤ heavySol.rest_b 1
        ∧ ¬ 0 ≤ heavySol.rest_b 0 + heavyData.a 0 0
        ∧ penalizedCost heavyData heavySol.new_bestsol
            (trueRest heavyData heavySol.new_bestsol) 2 = 22
        ∧ penalizedCost heavyData (reassignStep heavyData 0 1 heavySol).new_bestsol
            (trueRest heavyData (reassignStep heavyData 0 1 heavySol).new_bestsol) 2 = 30) := by
  refine ⟨⟨?_, ?_, ?_, by decide, ?_, by decide, by decide, by decide, by decide, by decide,
      by decide, by decide⟩,
    ⟨?_, ?_, ?_, by decide, ?_, by decide, by decide, by decide, by decide, by decide,
      by decide, by decide⟩,
    ⟨?_, ?_, ?_, by decide, ?_, by decide, by decide, by decide, by decide, by decide,
      by decide, by decide⟩⟩
  · intro i j
    simp only [costlyData]
    split_ifs <;> decide
  · intro i j
    show (0 : Int) ≤ 1
    decide
  · intro i j
    simp only [vals, costlyData]
    split_ifs <;> decide
  · intro i hi
    have hi2 : i < 2 := hi
    interval_cases i <;> decide
  · intro i j
    simp only [crowdData]
    split_ifs <;> decide
  · intro i j
    simp only [crowdData]
    split_ifs <;> decide
  · intro i j
    simp only [vals, crowdData]
    split_ifs <;> decide
  · intro i hi
    have hi2 : i < 2 := hi
    interval_cases i <;> decide
  · intro i j
    simp only [heavyData]
    split_ifs <;> decide
  · intro i j
    simp only [heavyData]
    split_ifs <;> decide
  · intro i j
    simp only [vals, heavyData]
    split_ifs <;> decide
  · intro i hi
    have hi2 : i < 2 := hi
    interval_cases i <;> decide

/-- C23, amended: for an assignment with entries in `[0, m)` and a consistent
`rest_b`, an accepted reassignment of job `j` to agent `assign[swap]`
(`tmp_cost > swap_cost`) strictly lowers `rawCost + 2 * capacityExcess` (with
the true remaining capacities of the assignment) provided job `j` costs at
the new agent no more than job `swap`, whose cost the test looks at
(`c[assign[swap]][j] ≤ c[assign[swap]][swap]`), the new agent has room for it
(`a[assign[swap]][j] ≤ rest[assign[swap]]`), and the agent it leaves is not
over capacity once it is gone (`rest[assign[j]] + a[assign[j]][j] ≥ 0`). -/
theorem reassign_monotone_amended (d : GAPdata) (s : Sol) (j swap : Nat)
    (hsol : InRange d s.new_bestsol)
    (hj : j < d.n) (hw : swap < d.n)
    (hcons : Consistent d s.new_bestsol s.rest_b)
    (hcost : d.c (s.new_bestsol swap) j ≤ d.c (s.new_bestsol swap) swap)
    (hroom : d.a (s.new_bestsol swap) j ≤ s.rest_b (s.new_bestsol swap))
    (hfree : 0 ≤ s.rest_b (s.new_bestsol j) + d.a (s.new_bestsol j) j)
    (hacc : tmp_cost d s j > swap_cost d s swap) :
    penalizedCost d (reassignStep d j swap s).new_bestsol
        (trueRest d (reassignStep d j swap s).new_bestsol) 2
      < penalizedCost d s.new_bestsol (trueRest d s.new_bestsol) 2 := by
  have e : reassignStep d j swap s = applyMove d j swap s := by
    unfold reassignStep
    rw [if_pos hacc]
  rw [e, applyMove_sol]
  have hacc2 : d.c (s.new_bestsol j) j + 2 * Max.max 0 (-s.rest_b (s.new_bestsol j))
      > d.c (s.new_bestsol swap) swap + 2 * Max.max 0 (-s.rest_b (s.new_bestsol swap)) := by
    have hm : ∀ x : Int, Gap.min 0 x = -Max.max 0 (-x) := by
      intro x
      unfold Gap.min
      split_ifs with h
      · rw [max_eq_left (by omega)]
        rfl
      · rw [max_eq_right (by omega)]
        ring
    unfold tmp_cost swap_cost at hacc
    rw [hm, hm] at hacc
    linarith
  have hsame : s.new_bestsol swap ≠ s.new_bestsol j := by
    intro h
    rw [h] at hacc2 hcost
    omega
  have hp : s.new_bestsol j < d.m := hsol j hj
  have hq : s.new_bestsol swap < d.m := hsol swap hw
  have hagree : ∀ i, i < d.m →
      trueRest d (Function.update s.new_bestsol j (s.new_bestsol swap)) i
        = Function.update
            (Function.update (trueRest d s.new_bestsol) (s.new_bestsol j)
              (trueRest d s.new_bestsol (s.new_bestsol j) + d.a (s.new_bestsol j) j))
            (s.new_bestsol swap)
            (trueRest d s.new_bestsol (s.new_bestsol swap) - d.a (s.new_bestsol swap) j)
            i := by
    intro i _
    rw [trueRest_update d _ j _ i hj]
    simp only [Function.update_apply]
    by_cases h1 : i = s.new_bestsol swap
    · have h2 : ¬ s.new_bestsol j = i := fun h => hsame (h1.symm.trans h.symm)
      rw [if_pos h1, if_neg h2, if_pos h1.symm, h1]
      ring
    · by_cases h3 : i = s.new_bestsol j
      · rw [if_neg h1, if_pos h3, if_pos h3.symm, if_neg (fun h => h1 h.symm), h3]
        ring
      · rw [if_neg h1, if_neg h3, if_neg (fun h => h3 h.symm), if_neg (fun h => h1 h.symm)]
        ring
  unfold penalizedCost
  rw [capacityExcess_congr d _ _ hagree,
    capacityExcess_update2 d _ _ _ _ _ (Ne.symm hsame) hp hq]
  have hraw : rawCost d (Function.update s.new_bestsol j (s.new_bestsol swap))
      = rawCost d s.new_bestsol - d.c (s.new_bestsol j) j + d.c (s.new_bestsol swap) j := by
    simp only [rawCost]
    rw [sum_update (fun x k => d.c x k) _ d.n j _ hj]
  rw [hraw, ← hcons _ hp, ← hcons _ hq]
  generalize s.rest_b (s.new_bestsol j) = rj at *
  generalize s.rest_b (s.new_bestsol swap) = rs at *
  generalize d.a (s.new_bestsol j) j = aj at *
  generalize d.a (s.new_bestsol swap) j = as at *
  have m1 : Max.max 0 (-(rs - as)) = 0 := max_eq_left (by omega)
  have m2 : Max.max 0 (-(rj + aj)) = 0 := max_eq_left (by omega)
  have m3 : 0 ≤ Max.max 0 (-rs) := le_max_left 0 _
  rw [m1, m2]
  linarith

/-- Witness for the amended C23 on `moveData`: job 0 (cost 1 on agent 0,
cost 0 on agent 1, requirement 1) moves to agent 1, which has 3 units left,
and the value goes from 1 to 0. -/
theorem reassign_monotone_amended_witness :
    penalizedCost moveData (reassignStep moveData 0 1 moveSol).new_bestsol
        (trueRest moveData (reassignStep moveData 0 1 moveSol).new_bestsol) 2
      < penalizedCost moveData moveSol.new_bestsol (trueRest moveData moveSol.new_bestsol) 2 :=
  reassign_monotone_amended moveData moveSol 0 1
    (by decide) (by decide) (by decide)
    (by
      intro i hi
      have hi2 : i < 2 := hi
      interval_cases i <;> decide)
    (by decide) (by decide) (by decide) (by decide)

/-- The acceptance test carries the amended statement: on `heavyData` from
`idleSol` the three provisos hold for `j = 0`, `swap = 1`, but
`tmp_cost = 0 ≤ 10 = swap_cost`, so the step leaves the state as it is; the
move that the test rejects would raise `rawCost + 2 * capacityExcess` from 10
to 20. -/
theorem rejected_move_would_raise :
    InRange heavyData idleSol.new_bestsol
      ∧ Consistent heavyData idleSol.new_bestsol idleSol.rest_b
      ∧ heavyData.c (idleSol.new_bestsol 1) 0 ≤ heavyData.c (idleSol.new_bestsol 1) 1
      ∧ heavyData.a (idleSol.new_bestsol 1) 0 ≤ idleSol.rest_b (idleSol.new_bestsol 1)
      ∧ 0 ≤ idleSol.rest_b (idleSol.new_bestsol 0) + heavyData.a (idleSol.new_bestsol 0) 0
      ∧ ¬ tmp_cost heavyData idleSol 0 > swap_cost heavyData idleSol 1
      ∧ reassignStep heavyData 0 1 idleSol = idleSol
      ∧ penalizedCost heavyData idleSol.new_bestsol
          (trueRest heavyData idleSol.new_bestsol) 2 = 10
      ∧ penalizedCost heavyData (applyMove heavyData 0 1 idleSol).new_bestsol
          (trueRest heavyData (applyMove heavyData 0 1 idleSol).new_bestsol) 2 = 20 := by
  refine ⟨by decide, ?_, by decide, by decide, by decide, by decide, ?_, by decide,
    by decide⟩
  · intro i hi
    have hi2 : i < 2 := hi
    interval_cases i <;> decide
  · unfold reassignStep
    rw [if_neg (by decide)]

/-- C24: in gap.c every reassignment step (job indices `j`, `swap` in
`[0, n)`) maps an assignment with entries in `[0, m)` to one with entries in
`[0, m)`, and every agent that serves some job after the step served some job
before it. -/
theorem reassign_keeps_agents (d : GAPdata) (s : Sol) (j swap : Nat)
    (_hj : j < d.n) (hw : swap < d.n) (h : InRange d s.new_bestsol) :
    InRange d (reassignStep d j swap s).new_bestsol
      ∧ ∀ i, (∃ k, k < d.n ∧ (reassignStep d j swap s).new_bestsol k = i) →
          ∃ k, k < d.n ∧ s.new_bestsol k = i := by
  unfold reassignStep
  split_ifs
  · rw [applyMove_sol]
    constructor
    · intro k hk
      simp only [Function.update_apply]
      split_ifs
      · exact h swap hw
      · exact h k hk
    · rintro i ⟨k, hk, hki⟩
      simp only [Function.update_apply] at hki
      split_ifs at hki
      · exact ⟨swap, hw, hki⟩
      · exact ⟨k, hk, hki⟩
  · exact ⟨h, fun i hi => hi⟩

/-- Witness for C24 on `moveData`: after job 0 has moved to agent 1 every
entry is below `m = 2`. -/
theorem reassign_keeps_agents_witness :
    InRange moveData (reassignStep moveData 0 1 moveSol).new_bestsol :=
  (reassign_keeps_agents moveData moveSol 0 1 (by decide) (by decide) (by decide)).1

end PolicyA

/-! ## Frame of one iteration of the pairwise-swap loop -/

namespace MLS

theorem swapIter_self (d : GAPdata) (s : MainState) (a : Nat) : swapIter d a a s = s := by
  unfold swapIter
  rw [if_pos rfl]

/-- With `n = 1` every state reached by the loop is the start state up to the
position in the random stream. -/
theorem iterations_one_job (d : GAPdata) (rng : Nat → Nat) (s : MainState) (hn : d.n = 1)
    (hi : s.impr < 5) :
    ∀ k, iterations d rng k s = some { s with pos := s.pos + 2 * k } := by
  intro k
  induction k with
  | zero => rfl
  | succ k ih =>
    have hlt : s.impr < ((d.n : Nat) : Int) * 5 := by
      rw [hn]
      omega
    simp only [iterations, ih, Option.some_bind, if_pos hlt]
    have e1 : rng (s.pos + 2 * k) % d.n = 0 := by rw [hn]; exact Nat.mod_one _
    have e2 : rng (s.pos + 2 * k + 1) % d.n = 0 := by rw [hn]; exact Nat.mod_one _
    rw [e1, e2, swapIter_self]
    have e3 : s.pos + 2 * k + 2 = s.pos + 2 * (k + 1) := by ring
    rw [e3]

theorem swapLoop_one_job (d : GAPdata) (rng : Nat → Nat) (hn : d.n = 1) (fuel : Nat) :
    ∀ s : MainState, s.impr < 5 → swapLoop d rng fuel s = none := by
  induction fuel with
  | zero =>
    intro s hi
    unfold swapLoop
    rw [if_pos (by rw [hn]; omega)]
  | succ fuel ih =>
    intro s hi
    unfold swapLoop
    rw [if_pos (by rw [hn]; omega)]
    have e1 : rng s.pos % d.n = 0 := by rw [hn]; exact Nat.mod_one _
    have e2 : rng (s.pos + 1) % d.n = 0 := by rw [hn]; exact Nat.mod_one _
    simp only [e1, e2, swapIter_self]
    exact ih _ hi

/-- C26: in gap_MLS_swap.c an iteration that draws `a == b` returns the state
it was given: `new_bestsol`, `rest_b`, `pre_val`, `new_val` and `impr` are
unchanged.  For `n = 1` both draws are `rand() % 1 = 0`, so from a state with
`impr < 5` every number `k` of iterations leaves all of these unchanged, `impr`
stays below `5n = 5`, and the loop does not end for any amount of fuel. -/
theorem equal_draw_is_noop (d : GAPdata) (rng : Nat → Nat) (s : MainState) (a : Nat) :
    swapIter d a a s = s
      ∧ (d.n = 1 → ∀ x y, swapIter d (x % d.n) (y % d.n) s = s)
      ∧ (d.n = 1 → s.impr < 5 →
          ∀ k, ∃ t, iterations d rng k s = some t
            ∧ t.new_bestsol = s.new_bestsol ∧ t.rest_b = s.rest_b
            ∧ t.pre_val = s.pre_val ∧ t.new_val = s.new_val
            ∧ t.impr = s.impr ∧ t.impr < (d.n : Int) * 5)
      ∧ (d.n = 1 → s.impr < 5 → ∀ fuel, swapLoop d rng fuel s = none) := by
  refine ⟨swapIter_self d s a, ?_, ?_, ?_⟩
  · intro hn x y
    rw [hn, Nat.mod_one, Nat.mod_one]
    exact swapIter_self d s 0
  · intro hn hi k
    refine ⟨_, iterations_one_job d rng s hn hi k, rfl, rfl, rfl, rfl, rfl, ?_⟩
    show s.impr < (d.n : Int) * 5
    rw [hn]
    omega
  · intro hn hi fuel
    exact swapLoop_one_job d rng hn fuel s hi

/-- Witness for C26 on `tightData` (`n = 1`): the loop started with `impr = 0`
has not ended after 100 units of fuel. -/
theorem equal_draw_is_noop_witness :
    swapLoop tightData (countingRand 1) 100 startState = none :=
  (equal_draw_is_noop tightData (countingRand 1) startState 0).2.2.2 rfl (by decide) 100

end MLS

/-! ## The reference value of the pairwise-swap loop -/

namespace MLS

theorem iterations_succ (d : GAPdata) (rng : Nat → Nat) (k : Nat) (s sk : MainState)
    (h : iterations d rng (k + 1) s = some sk) :
    ∃ t, iterations d rng k s = some t ∧ t.impr < (d.n : Int) * 5
      ∧ sk = swapIter d (rng t.pos % d.n) (rng (t.pos + 1) % d.n) { t with pos := t.pos + 2 } := by
  simp only [iterations] at h
  cases ht : iterations d rng k s with
  | none =>
    rw [ht] at h
    cases h
  | some t =>
    rw [ht, Option.some_bind] at h
    by_cases hg : t.impr < (d.n : Int) * 5
    · rw [if_pos hg] at h
      exact ⟨t, rfl, hg, (Option.some.inj h).symm⟩
    · rw [if_neg hg] at h
      cases h

theorem iterations_front (d : GAPdata) (rng : Nat → Nat) (k : Nat) (s : MainState)
    (hg : s.impr < (d.n : Int) * 5) :
    iterations d rng (k + 1) s
      = iterations d rng k
          (swapIter d (rng s.pos % d.n) (rng (s.pos + 1) % d.n) { s with pos := s.pos + 2 }) := by
  induction k with
  | zero => simp only [iterations, Option.some_bind, if_pos hg]
  | succ k ih =>
    have e : iterations d rng (k + 1 + 1) s
        = (iterations d rng (k + 1) s).bind (fun t =>
            if t.impr < (d.n : Int) * 5 then
              some (swapIter d (rng t.pos % d.n) (rng (t.pos + 1) % d.n)
                { t with pos := t.pos + 2 })
            else none) := rfl
    rw [e, ih]
    rfl

/-- A run of the loop that ends has made some number of iterations, and ends
in a state where the guard fails. -/
theorem swapLoop_iterations (d : GAPdata) (rng : Nat → Nat) (fuel : Nat) :
    ∀ s s2 : MainState, swapLoop d rng fuel s = some s2 →
      ∃ k, iterations d rng k s = some s2 ∧ ¬ s2.impr < (d.n : Int) * 5 := by
  induction fuel with
  | zero =>
    intro s s2 h
    unfold swapLoop at h
    by_cases hg : s.impr < (d.n : Int) * 5
    · rw [if_pos hg] at h
      cases h
    · rw [if_neg hg] at h
      cases h
      exact ⟨0, rfl, hg⟩
  | succ fuel ih =>
    intro s s2 h
    unfold swapLoop at h
    by_cases hg : s.impr < (d.n : Int) * 5
    · rw [if_pos hg] at h
      obtain ⟨k, hk, hx⟩ := ih _ _ h
      exact ⟨k + 1, by rw [iterations_front d rng k s hg]; exact hk, hx⟩
    · rw [if_neg hg] at h
      cases h
      exact ⟨0, rfl, hg⟩

end MLS

/-! ## The pairwise swap permutes the job-to-agent values -/

namespace MLS

theorem card_jobs_eq_sum (n : Nat) (f : Nat → Nat) (i : Nat) :
    (((Finset.range n).filter (fun j => f j = i)).card : Int)
      = ∑ j in Finset.range n, (if f j = i then (1 : Int) else 0) := by
  rw [Finset.card_filter]
  push_cast
  rfl

theorem count_map_range (n : Nat) (f : Nat → Nat) (i : Nat) :
    ((List.range n).map f).count i = ((Finset.range n).filter (fun j => f j = i)).card := by
  induction n with
  | zero => rfl
  | succ n ih =>
    rw [List.range_succ, List.map_append, List.count_append, ih, Finset.card_filter,
      Finset.card_filter, Finset.sum_range_succ]
    congr 1
    simp only [List.map_cons, List.map_nil, List.count_singleton, beq_iff_eq]

theorem applySwap_card (d : GAPdata) (s : MainState) (a b : Nat)
    (ha : a < d.n) (hb : b < d.n) (hab : a ≠ b) (i : Nat) :
    ((Finset.range d.n).filter (fun j => (applySwap d a b s).new_bestsol j = i)).card
      = ((Finset.range d.n).filter (fun j => s.new_bestsol j = i)).card := by
  have hcast : (((Finset.range d.n).filter
        (fun j => (applySwap d a b s).new_bestsol j = i)).card : Int)
      = (((Finset.range d.n).filter (fun j => s.new_bestsol j = i)).card : Int) := by
    rw [card_jobs_eq_sum, card_jobs_eq_sum]
    unfold applySwap
    dsimp only
    rw [sum_update (fun x _ => if x = i then (1 : Int) else 0) _ d.n a _ ha,
      sum_update (fun x _ => if x = i then (1 : Int) else 0) _ d.n b _ hb,
      Function.update_noteq hab]
    ring
  exact_mod_cast hcast

theorem swapIter_card (d : GAPdata) (s : MainState) (a b : Nat)
    (ha : a < d.n) (hb : b < d.n) (i : Nat) :
    ((Finset.range d.n).filter (fun j => (swapIter d a b s).new_bestsol j = i)).card
      = ((Finset.range d.n).filter (fun j => s.new_bestsol j = i)).card := by
  by_cases hab : a = b
  · have e : swapIter d a b s = s := by
      unfold swapIter
      rw [if_pos hab]
    rw [e]
  · rw [(swapIter_sol_rest d s a b hab).1]
    unfold acceptStep
    split_ifs
    · exact applySwap_card d s a b ha hb hab i
    · rfl

theorem iterations_card (d : GAPdata) (rng : Nat → Nat) (s : MainState) (h0 : 0 ≤ s.impr) :
    ∀ k sk, iterations d rng k s = some sk →
      0 ≤ sk.impr
        ∧ ∀ i, ((Finset.range d.n).filter (fun j => sk.new_bestsol j = i)).card
            = ((Finset.range d.n).filter (fun j => s.new_bestsol j = i)).card := by
  intro k
  induction k with
  | zero =>
    intro sk h
    have e : sk = s := (Option.some.inj h).symm
    subst e
    exact ⟨h0, fun _ => rfl⟩
  | succ k ih =>
    intro sk h
    obtain ⟨t, ht, hg, hsk⟩ := iterations_succ d rng k s sk h
    obtain ⟨t0, tc⟩ := ih t ht
    have hnpos : 0 < d.n := by
      by_contra hn
      have : d.n = 0 := by omega
      rw [this] at hg
      simp only [Nat.cast_zero, zero_mul] at hg
      omega
    rw [hsk]
    refine ⟨swapIter_impr_nonneg d _ _ _ t0, ?_⟩
    intro i
    rw [swapIter_card d { t with pos := t.pos + 2 } _ _ (Nat.mod_lt _ hnpos)
      (Nat.mod_lt _ hnpos) i]
    exact tc i

/-- C30: in gap_MLS_swap.c one iteration of the pairwise-swap loop with
`a, b < n` leaves, for every agent `i`, the number of jobs `j < n` with
`new_bestsol[j] = i` unchanged; after any number of iterations from a state
with `impr ≥ 0` these numbers are those of the start state and the list of
job-to-agent values is a permutation of the one at the start; and for a pair
of jobs on the same agent `cur_cost = swap_cost`, so the swap is not applied
and the iteration changes neither `new_bestsol` nor `rest_b`. -/
theorem swap_permutes_agents (d : GAPdata) (rng : Nat → Nat) (s : MainState)
    (h0 : 0 ≤ s.impr) :
    (∀ a b i, a < d.n → b < d.n →
        ((Finset.range d.n).filter (fun j => (swapIter d a b s).new_bestsol j = i)).card
          = ((Finset.range d.n).filter (fun j => s.new_bestsol j = i)).card)
      ∧ (∀ k sk, iterations d rng k s = some sk →
          (∀ i, ((Finset.range d.n).filter (fun j => sk.new_bestsol j = i)).card
              = ((Finset.range d.n).filter (fun j => s.new_bestsol j = i)).card)
            ∧ ((List.range d.n).map sk.new_bestsol).Perm
                ((List.range d.n).map s.new_bestsol))
      ∧ (∀ fuel s2, swapLoop d rng fuel s = some s2 →
          ((List.range d.n).map s2.new_bestsol).Perm ((List.range d.n).map s.new_bestsol))
      ∧ (∀ a b, s.new_bestsol a = s.new_bestsol b →
          cur_cost d s.new_bestsol s.rest_b a b = swap_cost d s.new_bestsol s.rest_b a b
            ∧ acceptStep d a b s = s
            ∧ (swapIter d a b s).new_bestsol = s.new_bestsol
            ∧ (swapIter d a b s).rest_b = s.rest_b) := by
  have hperm : ∀ k sk, iterations d rng k s = some sk →
      ((List.range d.n).map sk.new_bestsol).Perm ((List.range d.n).map s.new_bestsol) := by
    intro k sk hk
    rw [List.perm_iff_count]
    intro i
    rw [count_map_range, count_map_range]
    exact (iterations_card d rng s h0 k sk hk).2 i
  refine ⟨?_, ?_, ?_, ?_⟩
  · intro a b i ha hb
    exact swapIter_card d s a b ha hb i
  · intro k sk hk
    exact ⟨(iterations_card d rng s h0 k sk hk).2, hperm k sk hk⟩
  · intro fuel s2 h
    obtain ⟨k, hk, _⟩ := swapLoop_iterations d rng fuel s s2 h
    exact hperm k s2 hk
  · intro a b hsame
    have hcs := cur_eq_swap_of_same_agent d s a b hsame
    have hacc : acceptStep d a b s = s := by
      unfold acceptStep
      rw [if_neg (not_lt.mpr (le_of_eq hcs))]
    refine ⟨hcs, hacc, ?_, ?_⟩
    · by_cases hab : a = b
      · rw [hab, swapIter_self]
      · rw [(swapIter_sol_rest d s a b hab).1, hacc]
    · by_cases hab : a = b
      · rw [hab, swapIter_self]
      · rw [(swapIter_sol_rest d s a b hab).2, hacc]

/-- Witness for C30 on `swapData`: the accepted swap of jobs 0 and 1 from
`swapState` keeps one job on agent 0. -/
theorem swap_permutes_agents_witness :
    ((Finset.range swapData.n).filter
        (fun j => (swapIter swapData 0 1 swapState).new_bestsol j = 0)).card
      = ((Finset.range swapData.n).filter (fun j => swapState.new_bestsol j = 0)).card :=
  (swap_permutes_agents swapData (countingRand 1) swapState (by decide)).1 0 1 0
    (by decide) (by decide)

end MLS

/-! ## The repair pass of `random_init` -/

/-- C27, refuted as stated: on `slackData` (`b = [1, 3]`, every requirement 1)
with the stream `0, 0, 1, ...` both jobs are drawn onto agent 0; in the first
repair round (`swap = 1`) job 0 is moved, which leaves `rest_b[0] = 0`; job 1
is still on agent 0, whose `rest_b` is 0 and not below 0, and it is moved to
agent 1 all the same, in both files, because the skip tests `rest_b[tmp] > 0`.
`random_init` returns the assignment `[1, 1]`. -/
theorem repair_moves_job_at_zero_rest :
    (repairStart slackData).pos = 3 ∧ repairRand 2 % slackData.m = 1
      ∧ (MLS.repairJob slackData 1 0 (repairStart slackData)).sol 1 = 0
      ∧ (MLS.repairJob slackData 1 0 (repairStart slackData)).rest_b 0 = 0
      ∧ (MLS.repairJob slackData 1 1
          (MLS.repairJob slackData 1 0 (repairStart slackData))).sol 1 = 1
      ∧ (PolicyA.repairJob slackData 1 0 (repairStart slackData)).sol 1 = 0
      ∧ (PolicyA.repairJob slackData 1 0 (repairStart slackData)).rest_b 0 = 0
      ∧ (PolicyA.repairJob slackData 1 1
          (PolicyA.repairJob slackData 1 0 (repairStart slackData))).sol 1 = 1
      ∧ (MLS.random_init slackData repairRand 1 (fun _ => 0) (fun _ => 0) 0).map
          (fun r => (r.1 0, r.1 1, r.2)) = some (1, 1, 3)
      ∧ (PolicyA.random_init slackData repairRand 1 (fun _ => 0) (fun _ => 0) 0).map
          (fun r => (r.1 0, r.1 1, r.2)) = some (1, 1, 3) := by
  refine ⟨?_, ?_, ?_, ?_, ?_, ?_, ?_, ?_, ?_, ?_⟩ <;> decide

/-- C27, amended: in the repair pass of `random_init` (gap_MLS_swap.c and
gap.c) a job whose current agent has `rest_b > 0` at that moment is skipped:
the state is unchanged.  Hence a job is moved only if its agent has
`rest_b ≤ 0`, and then the test of the file holds:
`a[tmp][i] > a[swap][i]`, or `rest_b[swap] > a[tmp][i]` (gap_MLS_swap.c),
`rest_b[swap] ≥ a[tmp][i]` (gap.c). -/
theorem repair_moves_only_at_nonpositive_rest (d : GAPdata) (swap i : Nat)
    (s : MLS.InitState) :
    (s.rest_b (s.sol i) > 0 →
        MLS.repairJob d swap i s = s ∧ PolicyA.repairJob d swap i s = s)
      ∧ (MLS.repairJob d swap i s ≠ s →
          s.rest_b (s.sol i) ≤ 0
            ∧ (d.a (s.sol i) i > d.a swap i ∨ s.rest_b swap > d.a (s.sol i) i))
      ∧ (PolicyA.repairJob d swap i s ≠ s →
          s.rest_b (s.sol i) ≤ 0
            ∧ (d.a (s.sol i) i > d.a swap i ∨ s.rest_b swap ≥ d.a (s.sol i) i)) := by
  refine ⟨?_, ?_, ?_⟩
  · intro h
    constructor
    · unfold MLS.repairJob
      dsimp only
      rw [if_pos h]
    · unfold PolicyA.repairJob
      dsimp only
      rw [if_pos h]
  · intro h
    by_cases h1 : s.rest_b (s.sol i) > 0
    · exfalso
      apply h
      unfold MLS.repairJob
      dsimp only
      rw [if_pos h1]
    · by_cases h2 : d.a (s.sol i) i > d.a swap i ∨ s.rest_b swap > d.a (s.sol i) i
      · exact ⟨not_lt.mp h1, h2⟩
      · exfalso
        apply h
        unfold MLS.repairJob
        dsimp only
        rw [if_neg h1, if_neg h2]
  · intro h
    by_cases h1 : s.rest_b (s.sol i) > 0
    · exfalso
      apply h
      unfold PolicyA.repairJob
      dsimp only
      rw [if_pos h1]
    · by_cases h2 : d.a (s.sol i) i > d.a swap i ∨ s.rest_b swap ≥ d.a (s.sol i) i
      · exact ⟨not_lt.mp h1, h2⟩
      · exfalso
        apply h
        unfold PolicyA.repairJob
        dsimp only
        rw [if_neg h1, if_neg h2]

/-- Witness for the amended C27 on `slackData`: once both jobs are on agent 1
(`rest_b = [1, 1]`), job 0 is skipped whatever the candidate agent. -/
theorem repair_moves_only_at_nonpositive_rest_witness :
    MLS.repairJob slackData 0 0
        (MLS.repairJob slackData 1 1 (MLS.repairJob slackData 1 0 (repairStart slackData)))
      = MLS.repairJob slackData 1 1 (MLS.repairJob slackData 1 0 (repairStart slackData)) :=
  ((repair_moves_only_at_nonpositive_rest slackData 0 0
    (MLS.repairJob slackData 1 1
      (MLS.repairJob slackData 1 0 (repairStart slackData)))).1 (by decide)).1

/-- C28, refuted as stated: on `absorbData` (`a = [[1, 1], [5, 1]]`,
`b = [1, 3]`, all requirements non-negative) with the stream `0, 0, 1, ...`
both jobs are drawn onto agent 0 (`rest_b = [-1, 3]`); in the repair round
with `swap = 1` job 0 is moved although `a[1][0] = 5` is not smaller than
`a[0][0] = 1`, because gap.c tests `rest_b[swap] >= a[tmp][i]` (3 ≥ 1); the
candidate had `rest_b[1] = 3 < a[1][0] = 5` before the move and has
`rest_b[1] = -2 < 0` after it. -/
theorem repair_overfills_candidate :
    (∀ i j, 0 ≤ absorbData.a i j)
      ∧ (repairStart absorbData).sol 0 = 0
      ∧ (repairStart absorbData).rest_b 0 = -1
      ∧ (repairStart absorbData).rest_b 1 = 3
      ∧ repairRand 2 % absorbData.m = 1
      ∧ ¬ absorbData.a 1 0 < absorbData.a 0 0
      ∧ (PolicyA.repairJob absorbData 1 0 (repairStart absorbData)).sol 0 = 1
      ∧ (repairStart absorbData).rest_b 1 < absorbData.a 1 0
      ∧ (PolicyA.repairJob absorbData 1 0 (repairStart absorbData)).rest_b 1 = -2
      ∧ (PolicyA.repairJob absorbData 1 0 (repairStart absorbData)).rest_b 1 < 0 := by
  refine ⟨?_, ?_, ?_, ?_, ?_, ?_, ?_, ?_, ?_, ?_⟩
  · intro i j
    unfold absorbData
    dsimp only
    split_ifs <;> decide
  all_goals decide

/-- C28, amended: in the repair pass of `random_init` of gap.c, whenever a job
`i` is moved to the candidate agent `swap` (the state changes) although
`a[swap][i]` is not smaller than `a[tmp][i]` at its current agent `tmp`, the
agent `tmp` had `rest_b[tmp] ≤ 0` and the test that let the job through is
`rest_b[swap] ≥ a[tmp][i]`, on the requirement at the agent the job leaves;
the move subtracts the requirement at the receiving agent,
`rest_b[swap] -= a[swap][i]`, so `rest_b[swap]` is `≥ 0` after the move if and
only if `a[swap][i] ≤ rest_b[swap]` held before it. -/
theorem repair_move_tests_old_requirement (d : GAPdata) (swap i : Nat) (s : MLS.InitState)
    (hmoved : PolicyA.repairJob d swap i s ≠ s)
    (hns : ¬ d.a swap i < d.a (s.sol i) i) :
    s.rest_b (s.sol i) ≤ 0
      ∧ s.rest_b swap ≥ d.a (s.sol i) i
      ∧ swap ≠ s.sol i
      ∧ (PolicyA.repairJob d swap i s).sol i = swap
      ∧ (PolicyA.repairJob d swap i s).rest_b swap = s.rest_b swap - d.a swap i
      ∧ (0 ≤ (PolicyA.repairJob d swap i s).rest_b swap ↔ d.a swap i ≤ s.rest_b swap) := by
  by_cases h1 : s.rest_b (s.sol i) > 0
  · exfalso
    apply hmoved
    unfold PolicyA.repairJob
    dsimp only
    rw [if_pos h1]
  by_cases h2 : d.a (s.sol i) i > d.a swap i ∨ s.rest_b swap ≥ d.a (s.sol i) i
  swap
  · exfalso
    apply hmoved
    unfold PolicyA.repairJob
    dsimp only
    rw [if_neg h1, if_neg h2]
  have e : PolicyA.repairJob d swap i s
      = { s with
          sol := Function.update s.sol i swap,
          rest_b := Function.update
            (Function.update s.rest_b (s.sol i) (s.rest_b (s.sol i) + d.a (s.sol i) i)) swap
            (Function.update s.rest_b (s.sol i) (s.rest_b (s.sol i) + d.a (s.sol i) i) swap
              - d.a swap i) } := by
    unfold PolicyA.repairJob
    dsimp only
    rw [if_neg h1, if_pos h2]
  have hne : swap ≠ s.sol i := by
    intro heq
    apply hmoved
    rw [e]
    subst heq
    cases s
    simp
  have hroom : s.rest_b swap ≥ d.a (s.sol i) i := by
    rcases h2 with h | h
    · exact absurd h hns
    · exact h
  have hrest : (PolicyA.repairJob d swap i s).rest_b swap = s.rest_b swap - d.a swap i := by
    rw [e]
    dsimp only
    rw [Function.update_same, Function.update_noteq hne]
  refine ⟨not_lt.mp h1, hroom, hne, ?_, hrest, ?_⟩
  · rw [e]
    dsimp only
    rw [Function.update_same]
  · rw [hrest]
    omega

/-- Witness for the amended C28 on `absorbData`: job 0 is moved to agent 1
with `rest_b[1] = 3 ≥ a[0][0] = 1`, and `rest_b[1]` becomes `3 - a[1][0]`. -/
theorem repair_move_tests_old_requirement_witness :
    (repairStart absorbData).rest_b 1 ≥ absorbData.a ((repairStart absorbData).sol 0) 0
      ∧ (PolicyA.repairJob absorbData 1 0 (repairStart absorbData)).rest_b 1
          = (repairStart absorbData).rest_b 1 - absorbData.a 1 0 :=
  have h := repair_move_tests_old_requirement absorbData 1 0 (repairStart absorbData)
    (fun heq => absurd (congrArg (fun t => t.sol 0) heq) (by decide)) (by decide)
  ⟨h.2.1, h.2.2.2.2.1⟩

/-! ## The incumbent across restarts -/

/-- A sequence of states in which each step either leaves the incumbent as it
is or lowers its cost: the cost never rises, and the stored solution differs
only where the cost is strictly lower. -/
theorem chain_incumbent {σ : Type} (cost : σ → Int) (sol : σ → Nat → Nat)
    (step : σ → Option σ) (f : Nat → Option σ)
    (hf : ∀ k, f (k + 1) = (f k).bind step)
    (hstep : ∀ s s2, step s = some s2 →
      (sol s2 = sol s ∧ cost s2 = cost s) ∨ cost s2 < cost s)
    (i : Nat) (si : σ) (hi : f i = some si) :
    ∀ j sk, f (i + j) = some sk →
      cost sk ≤ cost si ∧ (cost sk = cost si → sol sk = sol si) := by
  intro j
  induction j with
  | zero =>
    intro sk hk
    rw [Nat.add_zero, hi] at hk
    cases hk
    exact ⟨le_refl _, fun _ => rfl⟩
  | succ j ih =>
    intro sk hk
    have e : i + (j + 1) = (i + j) + 1 := by omega
    rw [e, hf] at hk
    obtain ⟨sj, hj, hs⟩ := Option.bind_eq_some.mp hk
    obtain ⟨c1, c2⟩ := ih sj hj
    rcases hstep sj sk hs with ⟨h1, h2⟩ | h3
    · refine ⟨by rw [h2]; exact c1, ?_⟩
      intro heq
      rw [h1]
      exact c2 (by rw [← h2]; exact heq)
    · refine ⟨by omega, ?_⟩
      intro heq
      omega

namespace MLS

theorem updateIncumbent_cases (d : GAPdata) (t : MainState) :
    ((t.new_val < t.best_cost ∧ is_feasible t.rest_b d = true) →
        (updateIncumbent d t).best_cost = t.new_val
          ∧ (updateIncumbent d t).best_cost < t.best_cost
          ∧ ∀ j, j < d.n → (updateIncumbent d t).bestsol j = t.new_bestsol j)
      ∧ (¬ (t.new_val < t.best_cost ∧ is_feasible t.rest_b d = true) →
          updateIncumbent d t = t) := by
  constructor
  · intro hg
    unfold updateIncumbent
    rw [if_pos hg]
    refine ⟨rfl, hg.1, ?_⟩
    intro j hj
    show forLoop (fun i bs => Function.update bs i (t.new_bestsol i)) d.n t.bestsol j = _
    rw [copyLoop_apply, if_pos hj]
  · intro hg
    unfold updateIncumbent
    rw [if_neg hg]

theorem restart_incumbent (d : GAPdata) (rand : Nat → Nat → Nat) (heap : Nat → Nat → Int)
    (fuel : Nat) (s s2 : MainState) (h : restart d rand heap fuel s = some s2) :
    (s2.bestsol = s.bestsol ∧ s2.best_cost = s.best_cost) ∨ s2.best_cost < s.best_cost := by
  unfold restart at h
  dsimp only at h
  split at h
  · cases h
  · split at h
    · cases h
    · rename_i s1 hloop
      cases h
      obtain ⟨f1, f2⟩ := swapLoop_frame d _ fuel _ s1 hloop
      have g1 : s1.bestsol = s.bestsol := f1
      have g2 : s1.best_cost = s.best_cost := f2
      by_cases hg : s1.new_val < s1.best_cost ∧ is_feasible s1.rest_b d = true
      · right
        rw [← g2]
        exact ((updateIncumbent_cases d s1).1 hg).2.1
      · left
        rw [(updateIncumbent_cases d s1).2 hg]
        exact ⟨g1, g2⟩

end MLS

namespace PolicyA

theorem pass_incumbent (d : GAPdata) (rng : Nat → Nat) (r o : Nat) (u : MainState) :
    (pass d rng r o u).toIncumbent = u.toIncumbent := by
  unfold pass forRange
  generalize d.n - o * (d.n - r) - (r - o * r) = k
  induction k with
  | zero => rfl
  | succ k ih =>
    simp only [forLoop]
    exact ih

theorem sweep_incumbent (d : GAPdata) (rng : Nat → Nat) (s : MainState) :
    (sweep d rng s).toIncumbent = s.toIncumbent := by
  have hp : (pass d rng (rng s.pos % d.n) 1
      (pass d rng (rng s.pos % d.n) 0 { s with pos := s.pos + 1 })).toIncumbent
        = s.toIncumbent := by
    rw [pass_incumbent, pass_incumbent]
  unfold sweep
  simp only [forLoop]
  split_ifs
  · exact hp
  · exact hp

theorem searchLoop_incumbent (d : GAPdata) (rng : Nat → Nat) (fuel : Nat) :
    ∀ s s2 : MainState, searchLoop d rng fuel s = some s2 →
      s2.toIncumbent = s.toIncumbent := by
  induction fuel with
  | zero =>
    intro s s2 hl
    unfold searchLoop at hl
    split_ifs at hl
    cases hl
    rfl
  | succ fuel ih =>
    intro s s2 hl
    unfold searchLoop at hl
    split_ifs at hl
    · rw [ih _ s2 hl, sweep_incumbent]
    · cases hl
      rfl

theorem updateIncumbent_cases_gapc (d : GAPdata) (sol : Nat → Nat) (v : Int)
    (inc : Incumbent) :
    (v < inc.best_cost →
        (updateIncumbent d sol v inc).best_cost = v
          ∧ (updateIncumbent d sol v inc).best_cost < inc.best_cost
          ∧ ∀ j, j < d.n → (updateIncumbent d sol v inc).bestsol j = sol j)
      ∧ (¬ v < inc.best_cost → updateIncumbent d sol v inc = inc) := by
  constructor
  · intro hg
    unfold updateIncumbent
    rw [if_pos hg]
    refine ⟨rfl, hg, ?_⟩
    intro j hj
    show forLoop (fun i bs => Function.update bs i (sol i)) d.n inc.bestsol j = _
    rw [copyLoop_apply, if_pos hj]
  · intro hg
    unfold updateIncumbent
    rw [if_neg hg]

theorem restart_incumbent_gapc (d : GAPdata) (env : FloatEnv) (rand : Nat → Nat → Nat)
    (fuel : Nat) (s s2 : MainState) (h : restart d env rand fuel s = some s2) :
    (s2.bestsol = s.bestsol ∧ s2.best_cost = s.best_cost) ∨ s2.best_cost < s.best_cost := by
  unfold restart at h
  simp only [Option.map_eq_some'] at h
  obtain ⟨s1, hloop, hfin⟩ := h
  have g0 := searchLoop_incumbent d _ fuel _ s1 hloop
  have g : s1.toIncumbent = s.toIncumbent := g0
  rw [← hfin]
  show ((updateIncumbent d s1.new_bestsol s1.new_val s1.toIncumbent).bestsol = s.bestsol
      ∧ (updateIncumbent d s1.new_bestsol s1.new_val s1.toIncumbent).best_cost = s.best_cost)
    ∨ (updateIncumbent d s1.new_bestsol s1.new_val s1.toIncumbent).best_cost < s.best_cost
  rw [g]
  by_cases hg : s1.new_val < s.toIncumbent.best_cost
  · right
    exact ((updateIncumbent_cases_gapc d s1.new_bestsol s1.new_val s.toIncumbent).1 hg).2.1
  · left
    rw [(updateIncumbent_cases_gapc d s1.new_bestsol s1.new_val s.toIncumbent).2 hg]
    exact ⟨rfl, rfl⟩

end PolicyA

/-- C31: in gap_MLS_swap.c and in gap.c, (a) the compare-and-update of the
incumbent, when its guard holds, stores `new_val`, which is strictly below the
old `best_cost`, and copies `new_bestsol` into `bestsol`, and when the guard
fails changes nothing; (b) a restart either leaves `bestsol` and `best_cost`
as they were or ends with a strictly smaller `best_cost`; (c) from the state
in which the time loop is entered `best_cost = INT_MAX`, and for restart
numbers `i ≤ k` the `best_cost` after `k` restarts is at most the one after
`i` restarts and at most `INT_MAX`, and `bestsol` after `k` restarts differs
from `bestsol` after `i` restarts only if `best_cost` is strictly smaller. -/
theorem best_cost_never_increases (d : GAPdata) (env : FloatEnv)
    (rand : Nat → Nat → Nat) (heap : Nat → Nat → Int) (fuel : Nat) :
    ((∀ t : MLS.MainState,
          ((t.new_val < t.best_cost ∧ MLS.is_feasible t.rest_b d = true) →
            (MLS.updateIncumbent d t).best_cost = t.new_val
              ∧ (MLS.updateIncumbent d t).best_cost < t.best_cost
              ∧ ∀ j, j < d.n → (MLS.updateIncumbent d t).bestsol j = t.new_bestsol j)
          ∧ (¬ (t.new_val < t.best_cost ∧ MLS.is_feasible t.rest_b d = true) →
              MLS.updateIncumbent d t = t))
        ∧ (∀ s s2, MLS.restart d rand heap fuel s = some s2 →
            (s2.bestsol = s.bestsol ∧ s2.best_cost = s.best_cost)
              ∨ s2.best_cost < s.best_cost)
        ∧ (∀ s0, MLS.Initial s0 →
            s0.best_cost = INT_MAX
              ∧ ∀ i k si sk, i ≤ k → MLS.run d rand heap fuel i s0 = some si →
                  MLS.run d rand heap fuel k s0 = some sk →
                  sk.best_cost ≤ si.best_cost ∧ sk.best_cost ≤ INT_MAX
                    ∧ (sk.bestsol ≠ si.bestsol → sk.best_cost < si.best_cost)))
      ∧ ((∀ (sol : Nat → Nat) (v : Int) (inc : PolicyA.Incumbent),
          (v < inc.best_cost →
            (PolicyA.updateIncumbent d sol v inc).best_cost = v
              ∧ (PolicyA.updateIncumbent d sol v inc).best_cost < inc.best_cost
              ∧ ∀ j, j < d.n → (PolicyA.updateIncumbent d sol v inc).bestsol j = sol j)
          ∧ (¬ v < inc.best_cost → PolicyA.updateIncumbent d sol v inc = inc))
        ∧ (∀ s s2, PolicyA.restart d env rand fuel s = some s2 →
            (s2.bestsol = s.bestsol ∧ s2.best_cost = s.best_cost)
              ∨ s2.best_cost < s.best_cost)
        ∧ (∀ s0, PolicyA.Initial s0 →
            s0.best_cost = INT_MAX
              ∧ ∀ i k si sk, i ≤ k → PolicyA.run d env rand fuel i s0 = some si →
                  PolicyA.run d env rand fuel k s0 = some sk →
                  sk.best_cost ≤ si.best_cost ∧ sk.best_cost ≤ INT_MAX
                    ∧ (sk.bestsol ≠ si.bestsol → sk.best_cost < si.best_cost))) := by
  refine ⟨⟨MLS.updateIncumbent_cases d, MLS.restart_incumbent d rand heap fuel, ?_⟩,
    ⟨PolicyA.updateIncumbent_cases_gapc d, PolicyA.restart_incumbent_gapc d env rand fuel, ?_⟩⟩
  · intro s0 h0
    refine ⟨h0.2.1, ?_⟩
    have chain := chain_incumbent (fun s : MLS.MainState => s.best_cost)
      (fun s => s.bestsol) (MLS.restart d rand heap fuel)
      (fun k => MLS.run d rand heap fuel k s0) (fun _ => rfl)
      (MLS.restart_incumbent d rand heap fuel)
    intro i k si sk hik hi hk
    obtain ⟨j, hj⟩ := Nat.exists_eq_add_of_le hik
    subst hj
    obtain ⟨c1, c2⟩ := chain i si hi j sk hk
    obtain ⟨c3, _⟩ := chain 0 s0 rfl (i + j) sk (by rw [Nat.zero_add]; exact hk)
    refine ⟨c1, ?_, ?_⟩
    · rw [← h0.2.1]
      exact c3
    · intro hne
      rcases lt_or_eq_of_le c1 with hlt | heq
      · exact hlt
      · exact absurd (c2 heq) hne
  · intro s0 h0
    refine ⟨h0.2, ?_⟩
    have chain := chain_incumbent (fun s : PolicyA.MainState => s.best_cost)
      (fun s => s.bestsol) (PolicyA.restart d env rand fuel)
      (fun k => PolicyA.run d env rand fuel k s0) (fun _ => rfl)
      (PolicyA.restart_incumbent_gapc d env rand fuel)
    intro i k si sk hik hi hk
    obtain ⟨j, hj⟩ := Nat.exists_eq_add_of_le hik
    subst hj
    obtain ⟨c1, c2⟩ := chain i si hi j sk hk
    obtain ⟨c3, _⟩ := chain 0 s0 rfl (i + j) sk (by rw [Nat.zero_add]; exact hk)
    refine ⟨c1, ?_, ?_⟩
    · rw [← h0.2]
      exact c3
    · intro hne
      rcases lt_or_eq_of_le c1 with hlt | heq
      · exact hlt
      · exact absurd (c2 heq) hne

/-- Witness for C31: on `swapData` with the random source `countingRand` the
first restart of gap_MLS_swap.c from `startState` completes, and its
`best_cost` is below the initial `INT_MAX`. -/
theorem best_cost_never_increases_witness :
    ∃ st, MLS.run swapData countingRand (fun _ _ => 0) 12 1 startState = some st
      ∧ st.best_cost ≤ startState.best_cost ∧ st.best_cost ≤ INT_MAX
      ∧ startState.best_cost = INT_MAX := by
  have hsome : (MLS.run swapData countingRand (fun _ _ => 0) 12 1 startState).isSome
      = true := by decide!
  obtain ⟨st, hst⟩ := Option.isSome_iff_exists.mp hsome
  obtain ⟨h1, h2⟩ := (best_cost_never_increases swapData exactEnv countingRand
    (fun _ _ => 0) 12).1.2.2 startState ⟨rfl, rfl, rfl⟩
  obtain ⟨c1, c2, _⟩ := h2 0 1 startState st (by decide) rfl hst
  exact ⟨st, hst, c1, c2, h1⟩

end Gap
